import Mathlib

/-!
# BoardBench: verification of the game rules engine and match orchestrator

Shallow embedding of the `boardbench` Python repository:
* `boardbench/games/gomoku.py` and `boardbench/games/connect4.py` (rules engines),
* `boardbench/agents/random_agent.py` and `boardbench/agents/llm_agent.py`,
* `boardbench/engine/match_runner.py` (orchestration loop).

Boards are 2-D grids of small integers (0 = empty, 1 = player 0's mark,
2 = player 1's mark), modelled as lists of rows.  Python exceptions are
modelled with an explicit error type, Python's global `random` module with
an explicit state threaded through the definitions, and wall-clock time
with an oracle function.
-/

namespace BoardBench

/-- Python exceptions relevant to the embedded code. -/
inductive PyErr : Type where
  | valueError (msg : String) : PyErr
  | indexError (msg : String) : PyErr
deriving DecidableEq, Repr

instance {ε α : Type} [DecidableEq ε] [DecidableEq α] :
    DecidableEq (Except ε α) := fun x y =>
  match x, y with
  | Except.ok a, Except.ok b =>
      decidable_of_iff (a = b) ⟨fun h => h ▸ rfl, fun h => Except.ok.inj h⟩
  | Except.error a, Except.error b =>
      decidable_of_iff (a = b) ⟨fun h => h ▸ rfl, fun h => Except.error.inj h⟩
  | Except.ok _, Except.error _ => isFalse fun h => Except.noConfusion h
  | Except.error _, Except.ok _ => isFalse fun h => Except.noConfusion h

/-- A board state: a list of rows, each row a list of cell values. -/
abbrev Board := List (List Nat)

/-- Read cell `(r, c)`; all call sites index within bounds, so the default
value 0 is never observed on well-formed boards. -/
def getCell (b : Board) (r c : Nat) : Nat :=
  (b.getD r []).getD c 0

/-- Write cell `(r, c)` (numpy `state[r, c] = v` on the copied array). -/
def setCell (b : Board) (r c : Nat) (v : Nat) : Board :=
  b.set r ((b.getD r []).set c v)

/-- `np.zeros((rows, cols))`. -/
def zeroBoard (rows cols : Nat) : Board :=
  List.replicate rows (List.replicate cols 0)

/-- The board has exactly `rows` rows of exactly `cols` cells each. -/
def BoardDims (b : Board) (rows cols : Nat) : Prop :=
  b.length = rows ∧ ∀ row ∈ b, row.length = cols

/-! ## Shared win-scan families

`Gomoku.get_winner` and `Connect4.get_winner` run textually identical
scan loops, parameterized by the board shape and `win_length`; we share the
four loop families.  The Python bound `range(n - win_length + 1)` is empty
when `win_length > n`, so in `Nat` arithmetic it is `n + 1 - win_length`. -/

/-- Row scan: `for row in range(rows): for col in range(cols - win_length + 1):
np.all(state[row, col:col+win_length] == player_id)`. -/
def scanRows (rows cols winLen : Nat) (b : Board) (pid : Nat) : Bool :=
  (List.range rows).any fun row =>
    (List.range (cols + 1 - winLen)).any fun col =>
      (List.range winLen).all fun i => getCell b row (col + i) == pid

/-- Column scan: `for row in range(rows - win_length + 1): for col in range(cols)`. -/
def scanCols (rows cols winLen : Nat) (b : Board) (pid : Nat) : Bool :=
  (List.range (rows + 1 - winLen)).any fun row =>
    (List.range cols).any fun col =>
      (List.range winLen).all fun i => getCell b (row + i) col == pid

/-- Descending-diagonal scan (`state[row+i, col+i]`). -/
def scanDiagDown (rows cols winLen : Nat) (b : Board) (pid : Nat) : Bool :=
  (List.range (rows + 1 - winLen)).any fun row =>
    (List.range (cols + 1 - winLen)).any fun col =>
      (List.range winLen).all fun i => getCell b (row + i) (col + i) == pid

/-- Ascending-diagonal scan (`for row in range(win_length - 1, rows)`,
`state[row-i, col+i]`). -/
def scanDiagUp (rows cols winLen : Nat) (b : Board) (pid : Nat) : Bool :=
  (List.range' (winLen - 1) (rows - (winLen - 1))).any fun row =>
    (List.range (cols + 1 - winLen)).any fun col =>
      (List.range winLen).all fun i => getCell b (row - i) (col + i) == pid

/-- Whether `player_id` has any winning window; the four families in the
source's loop order (rows, columns, descending diagonals, ascending
diagonals).  Within one `player_id` the returned value does not depend on
which family hits, so the scan collapses to this disjunction. -/
def scanPlayer (rows cols winLen : Nat) (b : Board) (pid : Nat) : Bool :=
  scanRows rows cols winLen b pid || scanCols rows cols winLen b pid ||
    scanDiagDown rows cols winLen b pid || scanDiagUp rows cols winLen b pid

/-- The shared `get_winner` body: `for player_id in range(1, 3)` — all four
direction families are scanned for `player_id = 1` before `player_id = 2`. -/
def scanWinner (rows cols winLen : Nat) (b : Board) : Option Nat :=
  if scanPlayer rows cols winLen b 1 then some 0
  else if scanPlayer rows cols winLen b 2 then some 1
  else none

/-! ## Gomoku (`boardbench/games/gomoku.py`) -/

/-- Fixed configuration of a `Gomoku` instance. -/
structure Gomoku where
  board_size : Nat
  win_length : Nat
deriving DecidableEq, Repr

/-- `Gomoku.reset`: a fresh zero board. -/
def Gomoku.reset (g : Gomoku) : Board :=
  zeroBoard g.board_size g.board_size

/-- `Gomoku.get_legal_moves`: all `(r, c)` with `state[r, c] == 0`, row-major.
Move coordinates are Python ints, modelled as `Int × Int`. -/
def Gomoku.get_legal_moves (g : Gomoku) (state : Board) (_player : Nat) :
    List (Int × Int) :=
  (List.range g.board_size).flatMap fun r =>
    (List.range g.board_size).filterMap fun c =>
      if getCell state r c = 0 then some ((r : Int), (c : Int)) else none

/-- `Gomoku.make_move`: copies the state, validates bounds then occupancy
(each a `ValueError`), then writes `player + 1` at the cell. -/
def Gomoku.make_move (g : Gomoku) (state : Board) (move : Int × Int)
    (player : Nat) : Except PyErr Board :=
  if ¬ (0 ≤ move.1 ∧ move.1 < (g.board_size : Int) ∧
      0 ≤ move.2 ∧ move.2 < (g.board_size : Int)) then
    Except.error (PyErr.valueError "position is out of bounds")
  else if getCell state move.1.toNat move.2.toNat ≠ 0 then
    Except.error (PyErr.valueError "position is already occupied")
  else
    Except.ok (setCell state move.1.toNat move.2.toNat (player + 1))

/-- `Gomoku.get_winner`. -/
def Gomoku.get_winner (g : Gomoku) (state : Board) : Option Nat :=
  scanWinner g.board_size g.board_size g.win_length state

/-- `Gomoku.is_terminal`: a winner exists, or no legal moves remain for the
probe player 0. -/
def Gomoku.is_terminal (g : Gomoku) (state : Board) : Bool :=
  (g.get_winner state).isSome || (g.get_legal_moves state 0).isEmpty

/-! ## Connect4 (`boardbench/games/connect4.py`) -/

/-- Fixed configuration of a `Connect4` instance. -/
structure Connect4 where
  rows : Nat
  cols : Nat
  win_length : Nat
deriving DecidableEq, Repr

/-- `Connect4.reset`. -/
def Connect4.reset (g : Connect4) : Board :=
  zeroBoard g.rows g.cols

/-- `Connect4.get_legal_moves`: columns whose top cell is empty. -/
def Connect4.get_legal_moves (g : Connect4) (state : Board) (_player : Nat) :
    List Int :=
  (List.range g.cols).filterMap fun c =>
    if getCell state 0 c = 0 then some (c : Int) else none

/-- numpy column index resolution: indices in `[-cols, cols)` are accepted,
negative ones wrap. -/
def npCol (cols : Nat) (move : Int) : Nat :=
  (if move < 0 then move + cols else move).toNat

/-- `Connect4.make_move`: copies the state and walks rows bottom-up looking
for an empty cell in the column.  The source performs *no validation*: a
column index outside `[-cols, cols)` raises numpy's `IndexError` at the
first subscript (only reached when the board has at least one row), a
negative in-range index wraps, and a full column falls through the loop and
silently returns the unchanged copy. -/
def Connect4.make_move (g : Connect4) (state : Board) (move : Int)
    (player : Nat) : Except PyErr Board :=
  if g.rows = 0 then
    Except.ok state
  else if ¬ (-(g.cols : Int) ≤ move ∧ move < (g.cols : Int)) then
    Except.error (PyErr.indexError "index is out of bounds")
  else
    match ((List.range g.rows).reverse.find? fun r =>
        getCell state r (npCol g.cols move) == 0) with
    | some r => Except.ok (setCell state r (npCol g.cols move) (player + 1))
    | none => Except.ok state

/-- `Connect4.get_winner`. -/
def Connect4.get_winner (g : Connect4) (state : Board) : Option Nat :=
  scanWinner g.rows g.cols g.win_length state

/-- `Connect4.is_terminal`. -/
def Connect4.is_terminal (g : Connect4) (state : Board) : Bool :=
  (g.get_winner state).isSome || (g.get_legal_moves state 0).isEmpty

/-! ## Basic lemmas about legal moves and move application -/

theorem Gomoku.mem_get_legal_moves (g : Gomoku) (s : Board) (p : Nat)
    (m : Int × Int) :
    m ∈ g.get_legal_moves s p ↔
      ∃ r c : Nat, r < g.board_size ∧ c < g.board_size ∧
        getCell s r c = 0 ∧ m = ((r : Int), (c : Int)) := by
  simp only [Gomoku.get_legal_moves, List.mem_flatMap, List.mem_filterMap,
    List.mem_range]
  constructor
  · rintro ⟨r, hr, c, hc, hm⟩
    split at hm
    · exact ⟨r, c, hr, hc, by assumption, (Option.some.inj hm).symm⟩
    · exact absurd hm (by simp)
  · rintro ⟨r, c, hr, hc, hcell, hm⟩
    exact ⟨r, hr, c, hc, by simp [hcell, hm]⟩

theorem Connect4.mem_get_legal_cols (g : Connect4) (s : Board) (p : Nat)
    (m : Int) :
    m ∈ g.get_legal_moves s p ↔
      ∃ c : Nat, c < g.cols ∧ getCell s 0 c = 0 ∧ m = (c : Int) := by
  simp only [Connect4.get_legal_moves, List.mem_filterMap, List.mem_range]
  constructor
  · rintro ⟨c, hc, hcell⟩
    split at hcell
    · exact ⟨c, hc, by assumption, (Option.some.inj hcell).symm⟩
    · exact absurd hcell (by simp)
  · rintro ⟨c, hc, hcell, hm⟩
    exact ⟨c, hc, by simp [hcell, hm]⟩

/-- `Gomoku.make_move` errors exactly on out-of-bounds or occupied targets,
and the error is a `ValueError` (the `InvalidMove` class of failure). -/
theorem Gomoku.make_move_error_iff (g : Gomoku) (s : Board) (m : Int × Int)
    (p : Nat) :
    (∃ e, g.make_move s m p = Except.error e) ↔
      (¬ (0 ≤ m.1 ∧ m.1 < (g.board_size : Int) ∧ 0 ≤ m.2 ∧ m.2 < (g.board_size : Int)) ∨
        getCell s m.1.toNat m.2.toNat ≠ 0) := by
  unfold Gomoku.make_move
  split
  · simp_all
  · split
    · simp_all
    · simp_all

/-- When `Gomoku.make_move` fails, the reported error is a `ValueError`. -/
theorem Gomoku.make_move_error_is_valueError (g : Gomoku) (s : Board)
    (m : Int × Int) (p : Nat) (e : PyErr)
    (h : g.make_move s m p = Except.error e) : ∃ msg, e = PyErr.valueError msg := by
  unfold Gomoku.make_move at h
  split at h
  · exact ⟨_, (Except.error.inj h).symm⟩
  · split at h
    · exact ⟨_, (Except.error.inj h).symm⟩
    · exact absurd h (by simp)

/-- `Connect4.make_move` errors exactly when the board has at least one row
and the column index lies outside numpy's accepted range `[-cols, cols)`;
the error is then an `IndexError`, not a `ValueError`. -/
theorem Connect4.make_move_index_error_iff (g : Connect4) (s : Board) (m : Int)
    (p : Nat) :
    (∃ e, g.make_move s m p = Except.error e) ↔
      (g.rows ≠ 0 ∧ ¬ (-(g.cols : Int) ≤ m ∧ m < (g.cols : Int))) := by
  unfold Connect4.make_move
  split
  · simp_all
  · split
    · simp_all
    · constructor
      · rintro ⟨e, he⟩
        split at he
        · exact absurd he (by simp)
        · exact absurd he (by simp)
      · rintro ⟨h₁, h₂⟩
        simp_all

/-- On a full column (in numpy's accepted index range, on a board with at
least one row), `Connect4.make_move` silently returns the state unchanged:
no error is raised. -/
theorem Connect4.make_move_full_column (g : Connect4) (s : Board) (m : Int)
    (p : Nat) (hin : -(g.cols : Int) ≤ m ∧ m < (g.cols : Int))
    (hfull : ∀ r < g.rows, getCell s r (npCol g.cols m) ≠ 0) :
    g.make_move s m p = Except.ok s := by
  have hnone : ((List.range g.rows).reverse.find? fun r =>
      getCell s r (npCol g.cols m) == 0) = none := by
    rw [List.find?_eq_none]
    intro r hr
    rw [List.mem_reverse, List.mem_range] at hr
    simp [hfull r hr]
  by_cases h0 : g.rows = 0
  · simp [Connect4.make_move, h0]
  · simp [Connect4.make_move, h0, hin.1, hin.2, hnone]

/-- Legality closure for Gomoku: applying any move from `get_legal_moves`
succeeds. -/
theorem Gomoku.make_move_of_legal (g : Gomoku) (s : Board) (p q : Nat)
    (m : Int × Int) (hm : m ∈ g.get_legal_moves s p) :
    ∃ b, g.make_move s m q = Except.ok b := by
  rw [Gomoku.mem_get_legal_moves] at hm
  obtain ⟨r, c, hr, hc, hcell, hm⟩ := hm
  subst hm
  have hr2 : ((r : Int) < (g.board_size : Int)) := by exact_mod_cast hr
  have hc2 : ((c : Int) < (g.board_size : Int)) := by exact_mod_cast hc
  exact ⟨setCell s r c (q + 1), by simp [Gomoku.make_move, Int.natCast_nonneg,
    hr2, hc2, Int.toNat_natCast, hcell]⟩

/-- Legality closure for Connect4: applying any move from `get_legal_moves`
succeeds (in fact `make_move` never raises on an in-range column). -/
theorem Connect4.make_move_of_legal_col (g : Connect4) (s : Board) (p q : Nat)
    (m : Int) (hm : m ∈ g.get_legal_moves s p) :
    ∃ b, g.make_move s m q = Except.ok b := by
  rw [Connect4.mem_get_legal_cols] at hm
  obtain ⟨c, hc, hcell, hm⟩ := hm
  subst hm
  have hc2 : ((c : Int) < (g.cols : Int)) := by exact_mod_cast hc
  have hc1 : (-(g.cols : Int) ≤ (c : Int)) := by
    have := Int.natCast_nonneg c
    omega
  by_cases h0 : g.rows = 0
  · exact ⟨s, by simp [Connect4.make_move, h0]⟩
  · cases hfind : ((List.range g.rows).reverse.find? fun r =>
        getCell s r (npCol g.cols (c : Int)) == 0) with
    | none => exact ⟨s, by simp [Connect4.make_move, h0, hc1, hc2, hfind]⟩
    | some r =>
        exact ⟨setCell s r (npCol g.cols (c : Int)) (q + 1),
          by simp [Connect4.make_move, h0, hc1, hc2, hfind]⟩

/-! ## Claim C1 (amended) and C5 -/

/-- **C1 counterexample.** The claim says `applyMove` fails on a full
Connect4 column.  On the 2×2 Connect4 instance with `win_length = 2` and
column 0 full (so move 0 is not legal), `make_move` raises nothing and
returns the state unchanged. -/
theorem connect4_full_column_silently_ignored :
    ((0 : Int) ∉ (Connect4.mk 2 2 2).get_legal_moves [[1, 0], [2, 0]] 1) ∧
      (Connect4.mk 2 2 2).make_move [[1, 0], [2, 0]] 0 1 =
        Except.ok [[1, 0], [2, 0]] := by
  decide

/-- **C1 (amended).** Gomoku's `make_move` fails (with a `ValueError`)
exactly on an out-of-bounds coordinate or an occupied cell, and the input
state is never mutated (every branch works on a copy).  Connect4's
`make_move`, by contrast, validates nothing: it fails — with numpy's
`IndexError`, only reachable on a board with at least one row — exactly on
a column index outside `[-cols, cols)`; on a full column (any in-range
index) it silently returns the state unchanged instead of failing. -/
theorem applyMove_illegal_move_behavior :
    (∀ (g : Gomoku) (s : Board) (m : Int × Int) (p : Nat),
      (∃ e, g.make_move s m p = Except.error e) ↔
        (¬ (0 ≤ m.1 ∧ m.1 < (g.board_size : Int) ∧
            0 ≤ m.2 ∧ m.2 < (g.board_size : Int)) ∨
          getCell s m.1.toNat m.2.toNat ≠ 0)) ∧
    (∀ (g : Gomoku) (s : Board) (m : Int × Int) (p : Nat) (e : PyErr),
      g.make_move s m p = Except.error e → ∃ msg, e = PyErr.valueError msg) ∧
    (∀ (g : Connect4) (s : Board) (m : Int) (p : Nat),
      (∃ e, g.make_move s m p = Except.error e) ↔
        (g.rows ≠ 0 ∧ ¬ (-(g.cols : Int) ≤ m ∧ m < (g.cols : Int)))) ∧
    (∀ (g : Connect4) (s : Board) (m : Int) (p : Nat),
      (-(g.cols : Int) ≤ m ∧ m < (g.cols : Int)) →
      (∀ r < g.rows, getCell s r (npCol g.cols m) ≠ 0) →
      g.make_move s m p = Except.ok s) :=
  ⟨Gomoku.make_move_error_iff, Gomoku.make_move_error_is_valueError,
    Connect4.make_move_index_error_iff, fun g s m p hin hfull =>
      Connect4.make_move_full_column g s m p hin hfull⟩

/-- Witness for `applyMove_illegal_move_behavior` at concrete inputs: a
Gomoku out-of-bounds move yields a `ValueError`, and a full Connect4 column
yields the unchanged state. -/
theorem applyMove_illegal_move_behavior_witness :
    (∃ msg, PyErr.valueError "position is out of bounds" =
      PyErr.valueError msg) ∧
      (Connect4.mk 2 2 2).make_move [[1, 0], [2, 0]] 0 1 =
        Except.ok [[1, 0], [2, 0]] :=
  ⟨applyMove_illegal_move_behavior.2.1 (Gomoku.mk 2 2) (zeroBoard 2 2)
      (5, 5) 0 _ (by decide),
    applyMove_illegal_move_behavior.2.2.2 (Connect4.mk 2 2 2)
      [[1, 0], [2, 0]] 0 1 (by decide) (by decide)⟩

/-- **C5.** Legality closure: for both games, every move enumerated by
`get_legal_moves` is applied successfully by `make_move` — a new state is
returned and no error is raised. -/
theorem legality_closure :
    (∀ (g : Gomoku) (s : Board) (p : Nat) (m : Int × Int),
      m ∈ g.get_legal_moves s p → ∃ b, g.make_move s m p = Except.ok b) ∧
    (∀ (g : Connect4) (s : Board) (p : Nat) (m : Int),
      m ∈ g.get_legal_moves s p → ∃ b, g.make_move s m p = Except.ok b) :=
  ⟨fun g s p m hm => Gomoku.make_move_of_legal g s p p m hm,
    fun g s p m hm => Connect4.make_move_of_legal_col g s p p m hm⟩

/-- Witness for `legality_closure`: concrete legal moves on fresh boards
apply successfully in both games. -/
theorem legality_closure_witness :
    (∃ b, (Gomoku.mk 2 2).make_move (zeroBoard 2 2) (0, 0) 0 =
      Except.ok b) ∧
    (∃ b, (Connect4.mk 2 2 2).make_move (zeroBoard 2 2) 0 0 =
      Except.ok b) :=
  ⟨legality_closure.1 (Gomoku.mk 2 2) (zeroBoard 2 2) 0 (0, 0) (by decide),
    legality_closure.2 (Connect4.mk 2 2 2) (zeroBoard 2 2) 0 0 (by decide)⟩

/-! ## The win scan against the spec's window description

The spec describes the win condition as: slide a window of length
`winLength` along each of the four direction vectors `(0,1) (1,0) (1,1)
(-1,1)` from every cell where the full window fits; a window wins iff all
its cells carry the player's mark. -/

/-- The four direction vectors of the win scan. -/
def dirList : List (Int × Int) := [(0, 1), (1, 0), (1, 1), (-1, 1)]

/-- A winning run for mark `pid` along direction `d` from `(r, c)`: the
full window fits on the board and every window cell carries `pid`. -/
def RunAt (rows cols winLen : Nat) (b : Board) (pid : Nat)
    (d : Int × Int) : Prop :=
  ∃ r c : Int,
    (∀ i : Nat, i < winLen →
      0 ≤ r + i * d.1 ∧ r + i * d.1 < (rows : Int) ∧
      0 ≤ c + i * d.2 ∧ c + i * d.2 < (cols : Int)) ∧
    ∀ i : Nat, i < winLen →
      getCell b (r + i * d.1).toNat (c + i * d.2).toNat = pid

/-- `pid` has an unbroken run of length `winLen` along one of the four scan
directions. -/
def HasRun (rows cols winLen : Nat) (b : Board) (pid : Nat) : Prop :=
  ∃ d ∈ dirList, RunAt rows cols winLen b pid d

theorem scanRows_iff (rows cols winLen : Nat) (b : Board) (pid : Nat)
    (hw : 1 ≤ winLen) :
    scanRows rows cols winLen b pid = true ↔
      RunAt rows cols winLen b pid (0, 1) := by
  unfold scanRows RunAt
  simp only [List.any_eq_true, List.all_eq_true, List.mem_range, beq_iff_eq]
  constructor
  · rintro ⟨row, hrow, col, hcol, hcells⟩
    refine ⟨(row : Int), (col : Int), fun i hi => ?_, fun i hi => ?_⟩
    · simp only [mul_zero, mul_one, add_zero]
      omega
    · simp only [mul_zero, mul_one, add_zero]
      have h1 : ((row : Int)).toNat = row := by omega
      have h2 : ((col : Int) + (i : Int)).toNat = col + i := by omega
      rw [h1, h2]
      exact hcells i hi
  · rintro ⟨r, c, hfit, hcells⟩
    have h0 := hfit 0 (by omega)
    have hl := hfit (winLen - 1) (by omega)
    simp only [mul_zero, mul_one, add_zero] at h0 hl
    refine ⟨r.toNat, by omega, c.toNat, by omega, fun i hi => ?_⟩
    have hc := hcells i hi
    simp only [mul_zero, mul_one, add_zero] at hc
    have h1 : r.toNat = (r : Int).toNat := rfl
    have h2 : c.toNat + i = (c + (i : Int)).toNat := by omega
    rw [h2]
    exact hc

theorem scanCols_iff (rows cols winLen : Nat) (b : Board) (pid : Nat)
    (hw : 1 ≤ winLen) :
    scanCols rows cols winLen b pid = true ↔
      RunAt rows cols winLen b pid (1, 0) := by
  unfold scanCols RunAt
  simp only [List.any_eq_true, List.all_eq_true, List.mem_range, beq_iff_eq]
  constructor
  · rintro ⟨row, hrow, col, hcol, hcells⟩
    refine ⟨(row : Int), (col : Int), fun i hi => ?_, fun i hi => ?_⟩
    · simp only [mul_zero, mul_one, add_zero]
      omega
    · simp only [mul_zero, mul_one, add_zero]
      have h1 : ((row : Int) + (i : Int)).toNat = row + i := by omega
      have h2 : ((col : Int)).toNat = col := by omega
      rw [h1, h2]
      exact hcells i hi
  · rintro ⟨r, c, hfit, hcells⟩
    have h0 := hfit 0 (by omega)
    have hl := hfit (winLen - 1) (by omega)
    simp only [mul_zero, mul_one, add_zero] at h0 hl
    refine ⟨r.toNat, by omega, c.toNat, by omega, fun i hi => ?_⟩
    have hc := hcells i hi
    simp only [mul_zero, mul_one, add_zero] at hc
    have h1 : r.toNat + i = (r + (i : Int)).toNat := by omega
    rw [h1]
    exact hc

theorem scanDiagDown_iff (rows cols winLen : Nat) (b : Board) (pid : Nat)
    (hw : 1 ≤ winLen) :
    scanDiagDown rows cols winLen b pid = true ↔
      RunAt rows cols winLen b pid (1, 1) := by
  unfold scanDiagDown RunAt
  simp only [List.any_eq_true, List.all_eq_true, List.mem_range, beq_iff_eq]
  constructor
  · rintro ⟨row, hrow, col, hcol, hcells⟩
    refine ⟨(row : Int), (col : Int), fun i hi => ?_, fun i hi => ?_⟩
    · simp only [mul_one]
      omega
    · simp only [mul_one]
      have h1 : ((row : Int) + (i : Int)).toNat = row + i := by omega
      have h2 : ((col : Int) + (i : Int)).toNat = col + i := by omega
      rw [h1, h2]
      exact hcells i hi
  · rintro ⟨r, c, hfit, hcells⟩
    have h0 := hfit 0 (by omega)
    have hl := hfit (winLen - 1) (by omega)
    simp only [mul_one, add_zero] at h0 hl
    refine ⟨r.toNat, by omega, c.toNat, by omega, fun i hi => ?_⟩
    have hc := hcells i hi
    simp only [mul_one] at hc
    have h1 : r.toNat + i = (r + (i : Int)).toNat := by omega
    have h2 : c.toNat + i = (c + (i : Int)).toNat := by omega
    rw [h1, h2]
    exact hc

theorem scanDiagUp_iff (rows cols winLen : Nat) (b : Board) (pid : Nat)
    (hw : 1 ≤ winLen) :
    scanDiagUp rows cols winLen b pid = true ↔
      RunAt rows cols winLen b pid (-1, 1) := by
  unfold scanDiagUp RunAt
  simp only [List.any_eq_true, List.all_eq_true, List.mem_range,
    List.mem_range'_1, beq_iff_eq]
  constructor
  · rintro ⟨row, hrow, col, hcol, hcells⟩
    refine ⟨(row : Int), (col : Int), fun i hi => ?_, fun i hi => ?_⟩
    · simp only [mul_one, mul_neg]
      omega
    · simp only [mul_one, mul_neg]
      have h1 : ((row : Int) + -(i : Int)).toNat = row - i := by omega
      have h2 : ((col : Int) + (i : Int)).toNat = col + i := by omega
      rw [h1, h2]
      exact hcells i hi
  · rintro ⟨r, c, hfit, hcells⟩
    have h0 := hfit 0 (by omega)
    have hl := hfit (winLen - 1) (by omega)
    simp only [mul_one, mul_neg, add_zero] at h0 hl
    refine ⟨r.toNat, by omega, c.toNat, by omega, fun i hi => ?_⟩
    have hc := hcells i hi
    simp only [mul_one, mul_neg] at hc
    have h1 : r.toNat - i = (r + -(i : Int)).toNat := by omega
    have h2 : c.toNat + i = (c + (i : Int)).toNat := by omega
    rw [h1, h2]
    exact hc

/-- The collapsed per-player scan agrees with the spec's four-direction
window description. -/
theorem scanPlayer_iff (rows cols winLen : Nat) (b : Board) (pid : Nat)
    (hw : 1 ≤ winLen) :
    scanPlayer rows cols winLen b pid = true ↔
      HasRun rows cols winLen b pid := by
  unfold scanPlayer HasRun dirList
  simp only [Bool.or_eq_true, List.mem_cons, List.not_mem_nil, or_false,
    exists_eq_or_imp, exists_eq_left]
  rw [scanRows_iff rows cols winLen b pid hw,
    scanCols_iff rows cols winLen b pid hw,
    scanDiagDown_iff rows cols winLen b pid hw,
    scanDiagUp_iff rows cols winLen b pid hw]
  tauto

/-- Full characterization of the shared `get_winner` scan: player-id 1 is
scanned across all four families before player-id 2, so player index 0 is
returned whenever player 0 has any run. -/
theorem scanWinner_eq (rows cols winLen : Nat) (b : Board)
    (hw : 1 ≤ winLen) :
    (scanWinner rows cols winLen b = some 0 ↔ HasRun rows cols winLen b 1) ∧
    (scanWinner rows cols winLen b = some 1 ↔
      HasRun rows cols winLen b 2 ∧ ¬ HasRun rows cols winLen b 1) ∧
    (scanWinner rows cols winLen b = none ↔
      ¬ HasRun rows cols winLen b 1 ∧ ¬ HasRun rows cols winLen b 2) := by
  unfold scanWinner
  rw [← scanPlayer_iff rows cols winLen b 1 hw,
    ← scanPlayer_iff rows cols winLen b 2 hw]
  by_cases h1 : scanPlayer rows cols winLen b 1 = true
  · simp [h1]
  · by_cases h2 : scanPlayer rows cols winLen b 2 = true
    · simp [h1, h2]
    · simp [h1, h2]

theorem getCell_zeroBoard (rows cols r c : Nat) :
    getCell (zeroBoard rows cols) r c = 0 := by
  unfold getCell zeroBoard
  rcases lt_or_ge r rows with h | h
  · rcases lt_or_ge c cols with h2 | h2 <;>
      simp [List.getD_eq_getElem?_getD, List.getElem?_replicate, h, h2,
        Nat.not_lt.2]
  · simp [List.getD_eq_getElem?_getD, List.getElem?_replicate, Nat.not_lt.2 h]

theorem scanPlayer_zeroBoard (rows cols winLen a d pid : Nat)
    (hw : 1 ≤ winLen) (hpid : pid ≠ 0) :
    scanPlayer rows cols winLen (zeroBoard a d) pid = false := by
  rw [Bool.eq_false_iff]
  intro h
  rw [scanPlayer_iff rows cols winLen (zeroBoard a d) pid hw] at h
  obtain ⟨dir, hdir, r, c, hfit, hcells⟩ := h
  have h0 := hcells 0 (by omega)
  rw [getCell_zeroBoard] at h0
  exact hpid h0.symm

theorem scanWinner_zeroBoard (rows cols winLen a d : Nat) (hw : 1 ≤ winLen) :
    scanWinner rows cols winLen (zeroBoard a d) = none := by
  unfold scanWinner
  rw [scanPlayer_zeroBoard rows cols winLen a d 1 hw (by omega),
    scanPlayer_zeroBoard rows cols winLen a d 2 hw (by omega)]
  simp

theorem Gomoku.reset_not_terminal (g : Gomoku) (hs : 1 ≤ g.board_size)
    (hw : 1 ≤ g.win_length) :
    g.is_terminal g.reset = false ∧ g.get_winner g.reset = none := by
  have hwin : g.get_winner g.reset = none :=
    scanWinner_zeroBoard g.board_size g.board_size g.win_length
      g.board_size g.board_size hw
  have hmem : ((0 : Int), (0 : Int)) ∈ g.get_legal_moves g.reset 0 := by
    rw [Gomoku.mem_get_legal_moves]
    exact ⟨0, 0, by omega, by omega, getCell_zeroBoard _ _ 0 0, by simp⟩
  refine ⟨?_, hwin⟩
  unfold Gomoku.is_terminal
  rw [hwin]
  cases hleg : g.get_legal_moves g.reset 0 with
  | nil => rw [hleg] at hmem; exact absurd hmem (by simp)
  | cons x xs => simp

theorem Connect4.reset_not_terminal_c4 (g : Connect4) (_hr : 1 ≤ g.rows)
    (hc : 1 ≤ g.cols) (hw : 1 ≤ g.win_length) :
    g.is_terminal g.reset = false ∧ g.get_winner g.reset = none := by
  have hwin : g.get_winner g.reset = none :=
    scanWinner_zeroBoard g.rows g.cols g.win_length g.rows g.cols hw
  have hmem : (0 : Int) ∈ g.get_legal_moves g.reset 0 := by
    rw [Connect4.mem_get_legal_cols]
    exact ⟨0, by omega, getCell_zeroBoard _ _ 0 0, by simp⟩
  refine ⟨?_, hwin⟩
  unfold Connect4.is_terminal
  rw [hwin]
  cases hleg : g.get_legal_moves g.reset 0 with
  | nil => rw [hleg] at hmem; exact absurd hmem (by simp)
  | cons x xs => simp

/-! ## Claims C3 and C4 -/

/-- Modelled from the spec's words (claim C3): the *direction-major*
reading of "returns the first player index found by the deterministic scan
order of rows top-to-bottom/left-to-right, then columns, then descending
diagonals, then ascending diagonals" — every row window (of either mark) is
examined before any column window, and so on.  Kept for comparison against
the code's player-major scan. -/
def firstRowsWin (rows cols winLen : Nat) (b : Board) : Option Nat :=
  (List.range rows).findSome? fun row =>
    (List.range (cols + 1 - winLen)).findSome? fun col =>
      if (List.range winLen).all (fun i => getCell b row (col + i) == 1) then
        some 0
      else if (List.range winLen).all (fun i => getCell b row (col + i) == 2) then
        some 1
      else none

/-- Direction-major column windows (companion to `firstRowsWin`). -/
def firstColsWin (rows cols winLen : Nat) (b : Board) : Option Nat :=
  (List.range (rows + 1 - winLen)).findSome? fun row =>
    (List.range cols).findSome? fun col =>
      if (List.range winLen).all (fun i => getCell b (row + i) col == 1) then
        some 0
      else if (List.range winLen).all (fun i => getCell b (row + i) col == 2) then
        some 1
      else none

/-- Direction-major descending-diagonal windows. -/
def firstDiagDownWin (rows cols winLen : Nat) (b : Board) : Option Nat :=
  (List.range (rows + 1 - winLen)).findSome? fun row =>
    (List.range (cols + 1 - winLen)).findSome? fun col =>
      if (List.range winLen).all (fun i => getCell b (row + i) (col + i) == 1) then
        some 0
      else if (List.range winLen).all
          (fun i => getCell b (row + i) (col + i) == 2) then
        some 1
      else none

/-- Direction-major ascending-diagonal windows. -/
def firstDiagUpWin (rows cols winLen : Nat) (b : Board) : Option Nat :=
  (List.range' (winLen - 1) (rows - (winLen - 1))).findSome? fun row =>
    (List.range (cols + 1 - winLen)).findSome? fun col =>
      if (List.range winLen).all (fun i => getCell b (row - i) (col + i) == 1) then
        some 0
      else if (List.range winLen).all
          (fun i => getCell b (row - i) (col + i) == 2) then
        some 1
      else none

/-- The direction-major winner the claim describes: first hit among row
windows, then column windows, then descending then ascending diagonals. -/
def specDirectionMajorWinner (rows cols winLen : Nat) (b : Board) :
    Option Nat :=
  match firstRowsWin rows cols winLen b with
  | some w => some w
  | none =>
    match firstColsWin rows cols winLen b with
    | some w => some w
    | none =>
      match firstDiagDownWin rows cols winLen b with
      | some w => some w
      | none => firstDiagUpWin rows cols winLen b

/-- **C3 counterexample.** On a 5×5 board with `win_length = 3` where
player index 1 (mark 2) has a row run — found first by the claimed
rows-then-columns-then-diagonals scan order — and player index 0 (mark 1)
has only an ascending-diagonal run, `get_winner` returns 0, not the
direction-major first find 1. -/
theorem get_winner_scan_order_counterexample :
    (Gomoku.mk 5 3).get_winner
        [[2, 2, 2, 0, 0], [0, 0, 0, 0, 0], [0, 0, 1, 0, 0],
          [0, 1, 0, 0, 0], [1, 0, 0, 0, 0]] = some 0 ∧
      specDirectionMajorWinner 5 5 3
        [[2, 2, 2, 0, 0], [0, 0, 0, 0, 0], [0, 0, 1, 0, 0],
          [0, 1, 0, 0, 0], [1, 0, 0, 0, 0]] = some 1 := by
  decide

/-- **C3 (amended).** For both games, `get_winner` returns a player index
iff that player has an unbroken run of `win_length` cells along one of the
four direction vectors `(0,1) (1,0) (1,1) (-1,1)` from a cell where the
full window fits; the scan is *player-major* — all four direction families
are scanned for player 0 before player 1 — so whenever runs exist for both
players it returns player index 0 (the within-player family order rows,
columns, descending diagonals, ascending diagonals never affects the
returned index); it returns no winner iff neither player has a run. -/
theorem get_winner_run_characterization :
    (∀ (g : Gomoku) (s : Board), 1 ≤ g.win_length →
      (g.get_winner s = some 0 ↔
        HasRun g.board_size g.board_size g.win_length s 1) ∧
      (g.get_winner s = some 1 ↔
        HasRun g.board_size g.board_size g.win_length s 2 ∧
          ¬ HasRun g.board_size g.board_size g.win_length s 1) ∧
      (g.get_winner s = none ↔
        ¬ HasRun g.board_size g.board_size g.win_length s 1 ∧
          ¬ HasRun g.board_size g.board_size g.win_length s 2)) ∧
    (∀ (g : Connect4) (s : Board), 1 ≤ g.win_length →
      (g.get_winner s = some 0 ↔ HasRun g.rows g.cols g.win_length s 1) ∧
      (g.get_winner s = some 1 ↔
        HasRun g.rows g.cols g.win_length s 2 ∧
          ¬ HasRun g.rows g.cols g.win_length s 1) ∧
      (g.get_winner s = none ↔
        ¬ HasRun g.rows g.cols g.win_length s 1 ∧
          ¬ HasRun g.rows g.cols g.win_length s 2)) :=
  ⟨fun g s hw => scanWinner_eq g.board_size g.board_size g.win_length s hw,
    fun g s hw => scanWinner_eq g.rows g.cols g.win_length s hw⟩

/-- Witness for `get_winner_run_characterization`: the repository's own
horizontal-win fixture (5×5, `win_length` 3, mark 1 at `(2,0) (2,1) (2,2)`)
yields winner 0 and hence a run for mark 1. -/
theorem get_winner_run_characterization_witness :
    HasRun 5 5 3
      [[0, 0, 0, 0, 0], [0, 0, 0, 0, 0], [1, 1, 1, 0, 0],
        [0, 0, 0, 0, 0], [0, 0, 0, 0, 0]] 1 :=
  ((get_winner_run_characterization.1 (Gomoku.mk 5 3)
      [[0, 0, 0, 0, 0], [0, 0, 0, 0, 0], [1, 1, 1, 0, 0],
        [0, 0, 0, 0, 0], [0, 0, 0, 0, 0]] (by decide)).1).mp (by decide)

/-- **C4.** For both games `is_terminal` holds iff a winner exists or the
legal-move set probed with player 0 is empty; an empty board (of positive
dimensions, with positive `win_length`) is non-terminal with no winner; and
a completely full board with no aligned run — here a concrete 4×4 Gomoku
board with `win_length` 3 and a concrete 6×7 Connect4 board with
`win_length` 4 — is terminal with no winner. -/
theorem is_terminal_characterization :
    (∀ (g : Gomoku) (s : Board),
      g.is_terminal s = true ↔
        ((∃ w, g.get_winner s = some w) ∨ g.get_legal_moves s 0 = [])) ∧
    (∀ (g : Connect4) (s : Board),
      g.is_terminal s = true ↔
        ((∃ w, g.get_winner s = some w) ∨ g.get_legal_moves s 0 = [])) ∧
    (∀ g : Gomoku, 1 ≤ g.board_size → 1 ≤ g.win_length →
      g.is_terminal g.reset = false ∧ g.get_winner g.reset = none) ∧
    (∀ g : Connect4, 1 ≤ g.rows → 1 ≤ g.cols → 1 ≤ g.win_length →
      g.is_terminal g.reset = false ∧ g.get_winner g.reset = none) ∧
    ((Gomoku.mk 4 3).is_terminal
        [[2, 1, 2, 1], [1, 1, 2, 2], [2, 2, 1, 1], [1, 1, 2, 2]] = true ∧
      (Gomoku.mk 4 3).get_winner
        [[2, 1, 2, 1], [1, 1, 2, 2], [2, 2, 1, 1], [1, 1, 2, 2]] = none) ∧
    ((Connect4.mk 6 7 4).is_terminal
        [[1, 2, 1, 1, 1, 2, 2], [2, 2, 1, 1, 2, 1, 1], [1, 1, 2, 1, 2, 1, 1],
          [2, 2, 1, 2, 1, 2, 2], [2, 2, 1, 2, 1, 2, 1],
          [2, 2, 2, 1, 1, 2, 2]] = true ∧
      (Connect4.mk 6 7 4).get_winner
        [[1, 2, 1, 1, 1, 2, 2], [2, 2, 1, 1, 2, 1, 1], [1, 1, 2, 1, 2, 1, 1],
          [2, 2, 1, 2, 1, 2, 2], [2, 2, 1, 2, 1, 2, 1],
          [2, 2, 2, 1, 1, 2, 2]] = none) := by
  refine ⟨?_, ?_, ?_, ?_, by decide, by decide⟩
  · intro g s
    unfold Gomoku.is_terminal
    simp [Option.isSome_iff_exists, List.isEmpty_iff]
  · intro g s
    unfold Connect4.is_terminal
    simp [Option.isSome_iff_exists, List.isEmpty_iff]
  · exact fun g hs hw => Gomoku.reset_not_terminal g hs hw
  · exact fun g hr hc hw => Connect4.reset_not_terminal_c4 g hr hc hw

/-- Witness for `is_terminal_characterization` at the default game
configurations (15×15 win-5 Gomoku, 6×7 win-4 Connect4). -/
theorem is_terminal_characterization_witness :
    ((Gomoku.mk 15 5).is_terminal (Gomoku.mk 15 5).reset = false ∧
      (Gomoku.mk 15 5).get_winner (Gomoku.mk 15 5).reset = none) ∧
    ((Connect4.mk 6 7 4).is_terminal (Connect4.mk 6 7 4).reset = false ∧
      (Connect4.mk 6 7 4).get_winner (Connect4.mk 6 7 4).reset = none) :=
  ⟨is_terminal_characterization.2.2.1 (Gomoku.mk 15 5) (by decide) (by decide),
    is_terminal_characterization.2.2.2.1 (Connect4.mk 6 7 4) (by decide)
      (by decide) (by decide)⟩

/-! ## Move text (`move_to_string` / `string_to_move`)

These cross Python's f-strings, `str.split`, `str.lower`/`startswith` and
`int()`.  Strings are modelled as `List Char`. -/

/-- Python's `str.strip()`/`int()` whitespace (ASCII part of `\s`). -/
def isPySpace (c : Char) : Bool :=
  c = ' ' || c = '\t' || c = '\n' || c = '\x0d' || c = '\x0b' || c = '\x0c'

/-- ASCII decimal digit test (Python's `\d` and `int()` digit class,
restricted to ASCII as produced by this repository). -/
def isDigitChar (c : Char) : Bool :=
  48 ≤ c.toNat && c.toNat ≤ 57

/-- Base-10 value of a digit run. -/
def digitsVal (l : List Char) : Nat :=
  l.foldl (fun a c => a * 10 + (c.toNat - 48)) 0

/-- A non-empty all-digit run parses to its value. -/
def parseDigits (l : List Char) : Option Nat :=
  if l ≠ [] ∧ l.all isDigitChar then some (digitsVal l) else none

/-- Python `str.strip()` (as applied by `int()`). -/
def stripPy (s : List Char) : List Char :=
  ((s.dropWhile isPySpace).reverse.dropWhile isPySpace).reverse

/-- Sign-and-digits stage of Python `int(s)` (after stripping). -/
def pyIntAux : List Char → Option Int
  | [] => none
  | c :: rest =>
    if c = '-' then (parseDigits rest).map fun n => -(n : Int)
    else if c = '+' then (parseDigits rest).map fun n => (n : Int)
    else (parseDigits (c :: rest)).map fun n => (n : Int)

/-- Python `int(s)`: strip whitespace, one optional sign, then a non-empty
digit run (underscore group separators never occur in this repository's
move text and are not modelled). -/
def pyInt (s : List Char) : Option Int :=
  pyIntAux (stripPy s)

/-- Decimal rendering of a natural number (Python `str`). -/
def natToChars (n : Nat) : List Char :=
  if n < 10 then [Nat.digitChar n]
  else natToChars (n / 10) ++ [Nat.digitChar (n % 10)]
decreasing_by exact Nat.div_lt_self (by omega) (by omega)

/-- Decimal rendering of a Python int (f-string `{move}`). -/
def intToChars (i : Int) : List Char :=
  if i < 0 then '-' :: natToChars (-i).toNat else natToChars i.toNat

/-- Python `str.split(",")`: a comma opens a new (initially empty) field,
any other character is prepended to the first field of the split of the
rest (which is never empty). -/
def splitComma : List Char → List (List Char)
  | [] => [[]]
  | c :: rest =>
    if c = ',' then [] :: splitComma rest
    else (c :: (splitComma rest).headD []) :: (splitComma rest).tail

/-- `Gomoku.move_to_string`: `f"{row},{col}"`. -/
def Gomoku.move_to_string (_g : Gomoku) (m : Int × Int) : List Char :=
  intToChars m.1 ++ ',' :: intToChars m.2

/-- `Gomoku.string_to_move`: split on `","`, require exactly two parts,
convert both with `int()`; any failure is a `ValueError`. -/
def Gomoku.string_to_move (_g : Gomoku) (s : List Char) :
    Except PyErr (Int × Int) :=
  if (splitComma s).length = 2 then
    (pyInt ((splitComma s).headD [])).elim
      (Except.error (PyErr.valueError "invalid move format")) fun r =>
        (pyInt ((splitComma s).tail.headD [])).elim
          (Except.error (PyErr.valueError "invalid move format")) fun c =>
          Except.ok (r, c)
  else Except.error (PyErr.valueError "invalid move format")

/-- `Connect4.move_to_string`: `f"Column {move}"`. -/
def Connect4.move_to_string (_g : Connect4) (m : Int) : List Char :=
  'C' :: 'o' :: 'l' :: 'u' :: 'm' :: 'n' :: ' ' :: intToChars m

/-- `Connect4.string_to_move`: accept `"Column <int>"` (case-insensitively,
slicing off the first 7 characters) or a bare integer. -/
def Connect4.string_to_move (_g : Connect4) (s : List Char) :
    Except PyErr Int :=
  if (s.map Char.toLower).take 7 = ['c', 'o', 'l', 'u', 'm', 'n', ' '] then
    (pyInt (s.drop 7)).elim
      (Except.error (PyErr.valueError "invalid move format")) Except.ok
  else
    (pyInt s).elim
      (Except.error (PyErr.valueError "invalid move format")) Except.ok

theorem digitChar_toNat (d : Nat) (h : d < 10) :
    (Nat.digitChar d).toNat = 48 + d := by
  interval_cases d <;> rfl

theorem digitChar_isDigit (d : Nat) (h : d < 10) :
    isDigitChar (Nat.digitChar d) = true := by
  interval_cases d <;> rfl

theorem natToChars_ne_nil (n : Nat) : natToChars n ≠ [] := by
  unfold natToChars
  split <;> simp

theorem natToChars_all_digits (n : Nat) :
    (natToChars n).all isDigitChar = true := by
  induction n using Nat.strong_induction_on with
  | _ n ih =>
    unfold natToChars
    split
    · simpa using digitChar_isDigit n (by omega)
    · rw [List.all_append]
      have h1 := ih (n / 10) (Nat.div_lt_self (by omega) (by omega))
      have h2 := digitChar_isDigit (n % 10) (by omega)
      simp [h1, h2]

theorem digitsVal_natToChars_go (n : Nat) :
    ∀ a : Nat, (natToChars n).foldl (fun x c => x * 10 + (c.toNat - 48)) a =
      a * 10 ^ (natToChars n).length + n := by
  induction n using Nat.strong_induction_on with
  | _ n ih =>
    intro a
    unfold natToChars
    split
    · simp [List.foldl, digitChar_toNat n (by omega)]
    · rw [List.foldl_append, ih (n / 10) (Nat.div_lt_self (by omega) (by omega)) a,
        List.length_append]
      simp only [List.foldl_cons, List.foldl_nil, List.length_singleton]
      rw [digitChar_toNat (n % 10) (by omega)]
      have hd : 48 + n % 10 - 48 = n % 10 := by omega
      rw [hd]
      calc (a * 10 ^ (natToChars (n / 10)).length + n / 10) * 10 + n % 10
          = a * (10 ^ (natToChars (n / 10)).length * 10) +
              (n / 10 * 10 + n % 10) := by ring
        _ = a * 10 ^ ((natToChars (n / 10)).length + 1) + n := by
            rw [pow_succ]
            congr 1
            omega

theorem parseDigits_natToChars (n : Nat) :
    parseDigits (natToChars n) = some n := by
  unfold parseDigits digitsVal
  rw [if_pos ⟨natToChars_ne_nil n, natToChars_all_digits n⟩,
    digitsVal_natToChars_go n 0]
  simp

theorem isDigitChar_not_space (c : Char) (h : isDigitChar c = true) :
    isPySpace c = false := by
  have h2 : 48 ≤ c.toNat ∧ c.toNat ≤ 57 := by simpa [isDigitChar] using h
  unfold isPySpace
  simp only [Bool.or_eq_false_iff, decide_eq_false_iff_not]
  refine ⟨⟨⟨⟨⟨?_, ?_⟩, ?_⟩, ?_⟩, ?_⟩, ?_⟩ <;>
    (intro hc; subst hc; revert h2; decide)

theorem stripPy_of_digits (l : List Char) (h0 : l ≠ [])
    (h : l.all isDigitChar = true) : stripPy l = l := by
  have hrev : l.reverse.all isDigitChar = true := by simpa using h
  have step : ∀ m : List Char, m ≠ [] → m.all isDigitChar = true →
      m.dropWhile isPySpace = m := by
    intro m hm hall
    cases m with
    | nil => exact absurd rfl hm
    | cons c t =>
      have hc : isDigitChar c = true := by
        rw [List.all_cons] at hall
        exact (Bool.and_eq_true _ _ |>.mp hall).1
      rw [List.dropWhile_cons, if_neg]
      simp [isDigitChar_not_space c hc]
  unfold stripPy
  rw [step l h0 h, step l.reverse (by simpa using h0) hrev,
    List.reverse_reverse]

theorem pyInt_natToChars (n : Nat) : pyInt (natToChars n) = some (n : Int) := by
  unfold pyInt
  rw [stripPy_of_digits (natToChars n) (natToChars_ne_nil n)
    (natToChars_all_digits n)]
  obtain ⟨c, rest, hcr⟩ := List.exists_cons_of_ne_nil (natToChars_ne_nil n)
  have hc : isDigitChar c = true := by
    have := natToChars_all_digits n
    rw [hcr, List.all_cons] at this
    exact (Bool.and_eq_true _ _ |>.mp this).1
  have hcd : 48 ≤ c.toNat ∧ c.toNat ≤ 57 := by simpa [isDigitChar] using hc
  rw [hcr]
  simp only [pyIntAux]
  rw [if_neg (by intro hcm; subst hcm; revert hcd; decide),
    if_neg (by intro hcm; subst hcm; revert hcd; decide), ← hcr,
    parseDigits_natToChars n]
  rfl

theorem isDigitChar_ne_comma (c : Char) (h : isDigitChar c = true) :
    c ≠ ',' := by
  have h2 : 48 ≤ c.toNat ∧ c.toNat ≤ 57 := by simpa [isDigitChar] using h
  intro hc
  subst hc
  revert h2
  decide

theorem splitComma_ne_nil (l : List Char) : splitComma l ≠ [] := by
  induction l with
  | nil => simp [splitComma]
  | cons c t ih =>
    unfold splitComma
    split <;> simp

theorem splitComma_no_comma (l : List Char) (h : ∀ c ∈ l, c ≠ ',') :
    splitComma l = [l] := by
  induction l with
  | nil => rfl
  | cons c t ih =>
    unfold splitComma
    rw [if_neg (h c (by simp)), ih fun d hd => h d (by simp [hd])]
    simp

theorem splitComma_append (a b : List Char) (ha : ∀ c ∈ a, c ≠ ',') :
    splitComma (a ++ ',' :: b) = a :: splitComma b := by
  induction a with
  | nil => simp [splitComma]
  | cons c t ih =>
    have hc : c ≠ ',' := ha c (by simp)
    have ht := ih fun d hd => ha d (by simp [hd])
    show splitComma (c :: (t ++ ',' :: b)) = (c :: t) :: splitComma b
    simp only [splitComma]
    rw [if_neg hc, ht]
    simp

theorem intToChars_natCast (k : Nat) : intToChars (k : Int) = natToChars k := by
  unfold intToChars
  rw [if_neg (by omega), Int.toNat_natCast]

theorem toLower_digit (c : Char) (h : isDigitChar c = true) :
    Char.toLower c = c := by
  have h2 : 48 ≤ c.toNat ∧ c.toNat ≤ 57 := by simpa [isDigitChar] using h
  unfold Char.toLower
  rw [if_neg (by omega)]

theorem natToChars_no_comma (n : Nat) : ∀ ch ∈ natToChars n, ch ≠ ',' := by
  intro ch hch
  have hall := natToChars_all_digits n
  rw [List.all_eq_true] at hall
  exact isDigitChar_ne_comma ch (hall ch hch)

/-- **C6.** Move-text round-trip: for every legal move of either game,
`string_to_move (move_to_string m) = m`.  Connect4 move text is
`"Column {index}"` and parsing also accepts a bare integer; Gomoku move
text is `"{row},{col}"` and parsing fails whenever the input does not split
into exactly two comma-separated fields. -/
theorem move_text_round_trip :
    (∀ (g : Gomoku) (s : Board) (p : Nat) (m : Int × Int),
      m ∈ g.get_legal_moves s p →
      g.string_to_move (g.move_to_string m) = Except.ok m) ∧
    (∀ (g : Connect4) (s : Board) (p : Nat) (m : Int),
      m ∈ g.get_legal_moves s p →
      g.string_to_move (g.move_to_string m) = Except.ok m) ∧
    (∀ (g : Connect4) (n : Nat),
      g.string_to_move (natToChars n) = Except.ok (n : Int)) ∧
    (∀ (g : Gomoku) (s : List Char), (splitComma s).length ≠ 2 →
      ∃ e, g.string_to_move s = Except.error e) := by
  refine ⟨?_, ?_, ?_, ?_⟩
  · intro g s p m hm
    rw [Gomoku.mem_get_legal_moves] at hm
    obtain ⟨r, c, hr, hc, hcell, hm⟩ := hm
    subst hm
    have hstr : g.move_to_string ((r : Int), (c : Int)) =
        natToChars r ++ ',' :: natToChars c := by
      unfold Gomoku.move_to_string
      rw [intToChars_natCast, intToChars_natCast]
    have hsplit : splitComma (natToChars r ++ ',' :: natToChars c) =
        [natToChars r, natToChars c] := by
      rw [splitComma_append _ _ (natToChars_no_comma r),
        splitComma_no_comma _ (natToChars_no_comma c)]
    rw [hstr]
    unfold Gomoku.string_to_move
    rw [hsplit]
    simp [pyInt_natToChars]
  · intro g s p m hm
    rw [Connect4.mem_get_legal_cols] at hm
    obtain ⟨c, hc, hcell, hm⟩ := hm
    subst hm
    have hstr : g.move_to_string (c : Int) =
        ['C', 'o', 'l', 'u', 'm', 'n', ' '] ++ natToChars c := by
      unfold Connect4.move_to_string
      rw [intToChars_natCast]
      rfl
    rw [hstr]
    unfold Connect4.string_to_move
    rw [List.map_append,
      show (['C', 'o', 'l', 'u', 'm', 'n', ' '] : List Char).map Char.toLower =
        ['c', 'o', 'l', 'u', 'm', 'n', ' '] from by decide,
      List.take_left' (by rfl), if_pos rfl, List.drop_left' (by rfl),
      pyInt_natToChars]
    rfl
  · intro g n
    obtain ⟨d, rest, hdr⟩ := List.exists_cons_of_ne_nil (natToChars_ne_nil n)
    have hd : isDigitChar d = true := by
      have := natToChars_all_digits n
      rw [hdr, List.all_cons] at this
      exact (Bool.and_eq_true _ _ |>.mp this).1
    have hd2 : 48 ≤ d.toNat ∧ d.toNat ≤ 57 := by simpa [isDigitChar] using hd
    unfold Connect4.string_to_move
    rw [if_neg, pyInt_natToChars]
    · rfl
    · rw [hdr, List.map_cons, show (7 : Nat) = 6 + 1 from rfl,
        List.take_succ_cons]
      intro heq
      have hhead := (List.cons.inj heq).1
      rw [toLower_digit d hd] at hhead
      subst hhead
      revert hd2
      decide
  · intro g s h
    unfold Gomoku.string_to_move
    rw [if_neg h]
    exact ⟨_, rfl⟩

/-- Witness for `move_text_round_trip`: concrete legal moves round-trip in
both games. -/
theorem move_text_round_trip_witness :
    (Gomoku.mk 5 3).string_to_move
        ((Gomoku.mk 5 3).move_to_string (2, 3)) = Except.ok (2, 3) ∧
      (Connect4.mk 6 7 4).string_to_move
        ((Connect4.mk 6 7 4).move_to_string 6) = Except.ok 6 :=
  ⟨move_text_round_trip.1 (Gomoku.mk 5 3) (zeroBoard 5 5) 0 (2, 3) (by decide),
    move_text_round_trip.2.1 (Connect4.mk 6 7 4) (zeroBoard 6 7) 0 6
      (by decide)⟩

/-! ## Claim C9: board-domain invariant under reachability -/

/-- Cell values lie in the valid domain `{0, 1, 2}`. -/
def CellsValid (b : Board) : Prop :=
  ∀ row ∈ b, ∀ v ∈ row, v = 0 ∨ v = 1 ∨ v = 2

theorem setCell_preserves (b : Board) (rows cols r c v : Nat)
    (hd : BoardDims b rows cols) (hcells : CellsValid b)
    (hv : v = 1 ∨ v = 2) (hr : r < b.length) :
    BoardDims (setCell b r c v) rows cols ∧ CellsValid (setCell b r c v) := by
  obtain ⟨hlen, hwidth⟩ := hd
  have hrowmem : b.getD r [] ∈ b := by
    rw [List.getD_eq_getElem?_getD, List.getElem?_eq_getElem hr]
    exact List.getElem_mem hr
  refine ⟨⟨by simp [setCell, hlen], ?_⟩, ?_⟩
  · intro row hrow
    rcases List.mem_or_eq_of_mem_set hrow with h | h
    · exact hwidth row h
    · subst h
      rw [List.length_set]
      exact hwidth _ hrowmem
  · intro row hrow x hx
    rcases List.mem_or_eq_of_mem_set hrow with h | h
    · exact hcells row h x hx
    · subst h
      rcases List.mem_or_eq_of_mem_set hx with h2 | h2
      · exact hcells _ hrowmem x h2
      · rcases hv with hv | hv <;> subst h2 <;> subst hv <;> simp

/-- States reachable from `Gomoku.reset` by successful `make_move` calls
with player 0 or 1. -/
inductive Gomoku.Reachable (g : Gomoku) : Board → Prop
  | init : Gomoku.Reachable g g.reset
  | step (s s2 : Board) (m : Int × Int) (p : Nat) (hp : p = 0 ∨ p = 1)
      (hs : Gomoku.Reachable g s) (hm : g.make_move s m p = Except.ok s2) :
      Gomoku.Reachable g s2

/-- States reachable from `Connect4.reset` by successful `make_move` calls
with player 0 or 1. -/
inductive Connect4.Reachable (g : Connect4) : Board → Prop
  | init : Connect4.Reachable g g.reset
  | step (s s2 : Board) (m : Int) (p : Nat) (hp : p = 0 ∨ p = 1)
      (hs : Connect4.Reachable g s) (hm : g.make_move s m p = Except.ok s2) :
      Connect4.Reachable g s2

theorem zeroBoard_dims_valid (rows cols : Nat) :
    BoardDims (zeroBoard rows cols) rows cols ∧
      CellsValid (zeroBoard rows cols) := by
  refine ⟨⟨by simp [zeroBoard], ?_⟩, ?_⟩
  · intro row hrow
    rw [List.eq_of_mem_replicate hrow]
    simp
  · intro row hrow x hx
    rw [List.eq_of_mem_replicate hrow] at hx
    exact Or.inl (List.eq_of_mem_replicate hx)

theorem Gomoku.reachable_invariant (g : Gomoku) (s : Board)
    (h : g.Reachable s) :
    BoardDims s g.board_size g.board_size ∧ CellsValid s := by
  induction h with
  | init => exact zeroBoard_dims_valid g.board_size g.board_size
  | step s s2 m p hp hs hm ih =>
    unfold Gomoku.make_move at hm
    split at hm
    · exact absurd hm (by simp)
    · split at hm
      · exact absurd hm (by simp)
      · have hs2 : s2 = setCell s m.1.toNat m.2.toNat (p + 1) :=
          (Except.ok.inj hm).symm
        subst hs2
        have hbound : m.1.toNat < s.length := by
          have hrange : ¬ ¬ (0 ≤ m.1 ∧ m.1 < (g.board_size : Int) ∧
              0 ≤ m.2 ∧ m.2 < (g.board_size : Int)) := by assumption
          rw [not_not] at hrange
          rw [ih.1.1]
          omega
        exact setCell_preserves s g.board_size g.board_size m.1.toNat
          m.2.toNat (p + 1) ih.1 ih.2 (by omega) hbound

theorem Connect4.reachable_invariant_c4 (g : Connect4) (s : Board)
    (h : g.Reachable s) :
    BoardDims s g.rows g.cols ∧ CellsValid s := by
  induction h with
  | init => exact zeroBoard_dims_valid g.rows g.cols
  | step s s2 m p hp hs hm ih =>
    unfold Connect4.make_move at hm
    split at hm
    · rw [← Except.ok.inj hm]
      exact ih
    · split at hm
      · exact absurd hm (by simp)
      · cases hfind : ((List.range g.rows).reverse.find? fun r =>
            getCell s r (npCol g.cols m) == 0) with
        | none =>
          rw [hfind] at hm
          simp only at hm
          rw [← Except.ok.inj hm]
          exact ih
        | some r =>
          rw [hfind] at hm
          simp only at hm
          have hr : r < g.rows := by
            have := List.mem_of_find?_eq_some hfind
            rw [List.mem_reverse, List.mem_range] at this
            exact this
          have hs2 : s2 = setCell s r (npCol g.cols m) (p + 1) :=
            (Except.ok.inj hm).symm
          subst hs2
          exact setCell_preserves s g.rows g.cols r (npCol g.cols m)
            (p + 1) ih.1 ih.2 (by omega) (by rw [ih.1.1]; exact hr)

/-- **C9.** Board-domain invariant: every state reachable from `reset` by
successful `make_move` calls with player 0 or 1 has every cell in
`{0, 1, 2}` and keeps the dimensions fixed at game construction, for both
games. -/
theorem board_domain_invariant :
    (∀ (g : Gomoku) (s : Board), g.Reachable s →
      BoardDims s g.board_size g.board_size ∧ CellsValid s) ∧
    (∀ (g : Connect4) (s : Board), g.Reachable s →
      BoardDims s g.rows g.cols ∧ CellsValid s) :=
  ⟨Gomoku.reachable_invariant, Connect4.reachable_invariant_c4⟩

/-- Witness for `board_domain_invariant`: a concrete one-move state in each
game. -/
theorem board_domain_invariant_witness :
    (BoardDims [[1, 0], [0, 0]] 2 2 ∧ CellsValid [[1, 0], [0, 0]]) ∧
      (BoardDims [[0, 0], [2, 0]] 2 2 ∧ CellsValid [[0, 0], [2, 0]]) :=
  ⟨board_domain_invariant.1 (Gomoku.mk 2 2) [[1, 0], [0, 0]]
      (Gomoku.Reachable.step _ _ (0, 0) 0 (Or.inl rfl)
        Gomoku.Reachable.init (by decide)),
    board_domain_invariant.2 (Connect4.mk 2 2 2) [[0, 0], [2, 0]]
      (Connect4.Reachable.step _ _ 0 1 (Or.inr rfl)
        Connect4.Reachable.init (by decide))⟩

/-! ## Python's global `random` module

`random_agent.py` seeds the *global* `random` module in `__init__` and
draws from it in `make_move`; `match_runner.py`'s recovery path and
`llm_agent.py`'s fallback draw from the same global stream.  The stream is
modelled abstractly: `f seed pos n` is the index `random.choice` picks from
a length-`n` sequence at the `pos`-th draw after seeding with `seed`.  Only
determinism (a pure function of seed and position) and the `< n` bound are
used by the claims; the concrete Mersenne-Twister values are irrelevant. -/

/-- Abstract deterministic model of the seeded pseudo-random stream. -/
structure RandomModel where
  f : Nat → Nat → Nat → Nat
  f_lt : ∀ s p n, 0 < n → f s p n < n

/-- The global RNG state: the active seed and the number of draws made. -/
structure RngState where
  seed : Nat
  pos : Nat
deriving DecidableEq, Repr

/-- `random.seed(s)`. -/
def seedRng (s : Nat) (_rng : RngState) : RngState :=
  ⟨s, 0⟩

/-- A trivial concrete stream (always index 0), used to instantiate
witnesses. -/
def R0 : RandomModel :=
  ⟨fun _ _ _ => 0, fun _ _ _ hn => hn⟩

/-- `random.choice(l)` on a non-empty list: pick the stream's index,
advance the stream. -/
def choiceGet (R : RandomModel) (rng : RngState) (l : List α) (h : l ≠ []) :
    α × RngState :=
  (l.get ⟨R.f rng.seed rng.pos l.length,
      R.f_lt rng.seed rng.pos l.length (List.length_pos.mpr h)⟩,
    ⟨rng.seed, rng.pos + 1⟩)

/-- `RandomAgent.__init__`: seeds the global RNG iff a seed is given. -/
def RandomAgent.init (seed : Option Nat) (rng : RngState) : RngState :=
  match seed with
  | some s => seedRng s rng
  | none => rng

/-- `RandomAgent.make_move`: raise `ValueError` when no legal moves are
available, otherwise `random.choice(legal_moves)`. -/
def RandomAgent.make_move (R : RandomModel) (legal : List α)
    (rng : RngState) : Except PyErr α × RngState :=
  match legal with
  | [] => (Except.error (PyErr.valueError "No legal moves available"), rng)
  | m :: rest =>
    (Except.ok (choiceGet R rng (m :: rest) (by simp)).1,
      (choiceGet R rng (m :: rest) (by simp)).2)

/-- One agent lifetime: decisions over a sequence of legal-move lists,
threading the global RNG. -/
def runSessionGo (R : RandomModel) : RngState → List (List α) →
    List (Except PyErr α)
  | _, [] => []
  | rng, l :: ls =>
    (RandomAgent.make_move R l rng).1 ::
      runSessionGo R (RandomAgent.make_move R l rng).2 ls

/-- Construct a `RandomAgent` (seeding the global RNG) and present it the
given sequence of legal-move lists. -/
def RandomAgent.run_session (R : RandomModel) (seed : Option Nat)
    (lists : List (List α)) (rng0 : RngState) : List (Except PyErr α) :=
  runSessionGo R (RandomAgent.init seed rng0) lists

/-! ## LLM response parsing (`llm_agent.py`) -/

/-- Try to match `MOVE:\s*(\d+)` (case-insensitive) at the head of the
text: the five marker characters, then greedy whitespace, then a greedy
non-empty digit run whose value is returned. -/
def matchMarkerAt : List Char → Option Nat
  | c1 :: c2 :: c3 :: c4 :: c5 :: rest =>
    if c1.toLower = 'm' ∧ c2.toLower = 'o' ∧ c3.toLower = 'v' ∧
        c4.toLower = 'e' ∧ c5 = ':' then
      if (rest.dropWhile isPySpace).takeWhile isDigitChar = [] then none
      else some (digitsVal ((rest.dropWhile isPySpace).takeWhile isDigitChar))
    else none
  | _ => none

/-- `re.search`: the leftmost position where the whole pattern matches. -/
def findMarker : List Char → Option Nat
  | [] => none
  | c :: rest =>
    match matchMarkerAt (c :: rest) with
    | some v => some v
    | none => findMarker rest

/-- The random fallback of `_parse_response` (`random.choice`); `none`
models the `IndexError` Python would raise on an empty list. -/
def LLMAgent.fallback_choice (R : RandomModel) (legal : List μ)
    (rng : RngState) : Option μ × RngState :=
  match legal with
  | [] => (none, rng)
  | m :: rest =>
    (some (choiceGet R rng (m :: rest) (by simp)).1,
      (choiceGet R rng (m :: rest) (by simp)).2)

/-- `LLMAgent._parse_response`: extract the first `MOVE: <integer>` marker;
use it as an index into `legal_moves` when in range, otherwise (or with no
marker) fall back to a uniformly random legal move. -/
def LLMAgent.parse_response (R : RandomModel) (response : List Char)
    (legal : List μ) (rng : RngState) : Option μ × RngState :=
  (findMarker response).elim (LLMAgent.fallback_choice R legal rng)
    fun idx =>
      if idx < legal.length then (legal.get? idx, rng)
      else LLMAgent.fallback_choice R legal rng

theorem fallback_choice_mem (R : RandomModel) (legal : List μ)
    (rng : RngState) (h : legal ≠ []) :
    ∃ m, (LLMAgent.fallback_choice R legal rng).1 = some m ∧ m ∈ legal := by
  cases legal with
  | nil => exact absurd rfl h
  | cons x xs =>
    refine ⟨(choiceGet R rng (x :: xs) (by simp)).1, rfl, ?_⟩
    exact List.get_mem _ _ _

/-- **C8.** `_parse_response` on any response text: with a non-empty legal
list it never fails and always returns a legal move; when the first
`MOVE: <integer>` marker's index is in `[0, len(legalMoves))` it returns
`legalMoves[index]` without consuming randomness; when the index is out of
range or no marker exists it falls back to `random.choice(legalMoves)`. -/
theorem llm_parse_response_spec :
    (∀ (μ : Type) (R : RandomModel) (response : List Char) (legal : List μ)
      (rng : RngState), legal ≠ [] →
      ∃ m, (LLMAgent.parse_response R response legal rng).1 = some m ∧
        m ∈ legal) ∧
    (∀ (μ : Type) (R : RandomModel) (response : List Char) (legal : List μ)
      (rng : RngState) (idx : Nat),
      findMarker response = some idx → idx < legal.length →
      LLMAgent.parse_response R response legal rng = (legal.get? idx, rng)) ∧
    (∀ (μ : Type) (R : RandomModel) (response : List Char) (legal : List μ)
      (rng : RngState),
      (findMarker response = none ∨
        ∃ idx, findMarker response = some idx ∧ legal.length ≤ idx) →
      LLMAgent.parse_response R response legal rng =
        LLMAgent.fallback_choice R legal rng) := by
  refine ⟨?_, ?_, ?_⟩
  · intro μ R response legal rng h
    unfold LLMAgent.parse_response
    cases hfind : findMarker response with
    | none =>
      simp only [Option.elim_none]
      exact fallback_choice_mem R legal rng h
    | some idx =>
      simp only [Option.elim_some]
      by_cases hlt : idx < legal.length
      · rw [if_pos hlt]
        refine ⟨legal.get ⟨idx, hlt⟩, ?_, List.get_mem _ _ _⟩
        simp [List.get?_eq_get hlt]
      · rw [if_neg hlt]
        exact fallback_choice_mem R legal rng h
  · intro μ R response legal rng idx hfind hlt
    unfold LLMAgent.parse_response
    rw [hfind]
    simp [hlt]
  · intro μ R response legal rng h
    unfold LLMAgent.parse_response
    rcases h with h | ⟨idx, hfind, hge⟩
    · rw [h]
      simp
    · rw [hfind]
      simp [Nat.not_lt.mpr hge]

/-- Witness for `llm_parse_response_spec`: a concrete marker response picks
the indexed legal move. -/
theorem llm_parse_response_spec_witness :
    LLMAgent.parse_response R0 ['m', 'o', 'v', 'e', ':', '1'] [10, 20, 30]
      ⟨0, 0⟩ = ([10, 20, 30].get? 1, ⟨0, 0⟩) :=
  llm_parse_response_spec.2.1 Nat R0 ['m', 'o', 'v', 'e', ':', '1']
    [10, 20, 30] ⟨0, 0⟩ 1 (by decide) (by decide)

/-! ## MatchRunner (`engine/match_runner.py`)

`run_match` is generic over the game and its agents; the embedding mirrors
that with small interface records.  Wall-clock decision times are an oracle
`times : Nat → ℚ` indexed by the decision counter; Python's possible
non-termination of the turn loop (a pathological game could pass forever)
is modelled with explicit fuel, `none` meaning the loop did not finish. -/

/-- The slice of the `Game` interface the orchestrator uses. -/
structure GameI (μ : Type) where
  num_players : Nat
  reset : Board
  get_legal_moves : Board → Nat → List μ
  make_move : Board → μ → Nat → Except PyErr Board
  is_terminal : Board → Bool
  get_winner : Board → Option Nat

/-- The slice of the `Agent` interface the orchestrator uses: `decide`,
threading the global RNG (feedback hooks are observed via the runner's
log). -/
structure AgentI (μ : Type) where
  make_move : Board → List μ → Nat → RngState → Except PyErr μ × RngState

/-- `Gomoku` as seen by the orchestrator. -/
def Gomoku.toGameI (g : Gomoku) : GameI (Int × Int) :=
  ⟨2, g.reset, g.get_legal_moves, g.make_move,
    fun s => g.is_terminal s, fun s => g.get_winner s⟩

/-- `Connect4` as seen by the orchestrator. -/
def Connect4.toGameI (g : Connect4) : GameI Int :=
  ⟨2, g.reset, g.get_legal_moves, g.make_move,
    fun s => g.is_terminal s, fun s => g.get_winner s⟩

/-- A `RandomAgent` as seen by the orchestrator (its seed has already been
applied to the global RNG at construction). -/
def randomAgentI (R : RandomModel) : AgentI μ :=
  ⟨fun _ legal _ rng => RandomAgent.make_move R legal rng⟩

/-- The orchestrator's mutable per-match data: current state, histories,
timing samples, turn bookkeeping, the global RNG, the decision counter
(indexing the time oracle), and the log of `move_feedback` invocations
`(seat, accepted)`. -/
structure RunState (μ : Type) where
  state : Board
  states_history : List Board
  moves_history : List (Nat × μ)
  move_times : List ℚ
  current_player : Nat
  move_count : Nat
  rng : RngState
  tick : Nat
  feedback_log : List (Nat × Bool)
deriving DecidableEq

/-- The accepted-move branch: record the move and its time sample, apply it
(trusted — an error here propagates), snapshot the new state, advance. -/
def MatchRunner.applyAccepted (G : GameI μ) (times : Nat → ℚ)
    (st : RunState μ) (m : μ) (rng2 : RngState) :
    Except PyErr (RunState μ) :=
  match G.make_move st.state m st.current_player with
  | Except.error e => Except.error e
  | Except.ok s2 =>
    Except.ok
      { state := s2
        states_history := st.states_history ++ [s2]
        moves_history := st.moves_history ++ [(st.current_player, m)]
        move_times := st.move_times ++ [times st.tick]
        current_player := (st.current_player + 1) % G.num_players
        move_count := st.move_count + 1
        rng := rng2
        tick := st.tick + 1
        feedback_log := st.feedback_log ++ [(st.current_player, true)] }

/-- The rejected-move branch: after `move_feedback(..., False)`, pick a
uniformly random move from the turn's `legal_moves`, apply it on the
agent's behalf, snapshot the new state — but record no move-history entry
and no time sample — and consume the turn. -/
def MatchRunner.applyFallback (G : GameI μ) (R : RandomModel)
    (st : RunState μ) (legal : List μ) (rng2 : RngState) :
    Except PyErr (RunState μ) :=
  match legal with
  | [] =>
    Except.ok
      { st with
        current_player := (st.current_player + 1) % G.num_players
        move_count := st.move_count + 1
        rng := rng2
        tick := st.tick + 1
        feedback_log := st.feedback_log ++ [(st.current_player, false)] }
  | x :: xs =>
    match G.make_move st.state
        ((choiceGet R rng2 (x :: xs) (by simp)).1) st.current_player with
    | Except.error e => Except.error e
    | Except.ok s2 =>
      Except.ok
        { st with
          state := s2
          states_history := st.states_history ++ [s2]
          current_player := (st.current_player + 1) % G.num_players
          move_count := st.move_count + 1
          rng := (choiceGet R rng2 (x :: xs) (by simp)).2
          tick := st.tick + 1
          feedback_log := st.feedback_log ++ [(st.current_player, false)] }

/-- Accept iff the agent returned a value contained in the turn's
`legal_moves`; otherwise run the recovery policy. -/
def MatchRunner.resolve (G : GameI μ) [DecidableEq μ] (R : RandomModel)
    (times : Nat → ℚ) (st : RunState μ) (legal : List μ)
    (dec : Except PyErr μ × RngState) : Except PyErr (RunState μ) :=
  match dec with
  | (Except.ok m, rng2) =>
    if m ∈ legal then MatchRunner.applyAccepted G times st m rng2
    else MatchRunner.applyFallback G R st legal rng2
  | (Except.error _, rng2) => MatchRunner.applyFallback G R st legal rng2

/-- One iteration of the turn loop: pass when the current player has no
legal moves (no record, no consumed turn), otherwise ask the agent and
resolve. -/
def MatchRunner.step (G : GameI μ) [DecidableEq μ] (agents : Nat → AgentI μ)
    (R : RandomModel) (times : Nat → ℚ) (st : RunState μ) :
    Except PyErr (RunState μ) :=
  if G.get_legal_moves st.state st.current_player = [] then
    Except.ok
      { st with current_player := (st.current_player + 1) % G.num_players }
  else
    MatchRunner.resolve G R times st
      (G.get_legal_moves st.state st.current_player)
      ((agents st.current_player).make_move st.state
        (G.get_legal_moves st.state st.current_player) st.current_player
        st.rng)

/-- The turn loop: run while the state is non-terminal and fewer than
`max_moves` turns were consumed; `none` when the fuel runs out first. -/
def MatchRunner.run_loop (G : GameI μ) [DecidableEq μ]
    (agents : Nat → AgentI μ) (R : RandomModel) (times : Nat → ℚ)
    (max_moves : Nat) : Nat → RunState μ →
    Option (Except PyErr (RunState μ))
  | 0, _ => none
  | fuel + 1, st =>
    if G.is_terminal st.state = false ∧ st.move_count < max_moves then
      match MatchRunner.step G agents R times st with
      | Except.error e => some (Except.error e)
      | Except.ok st2 =>
        MatchRunner.run_loop G agents R times max_moves fuel st2
    else some (Except.ok st)

/-- The final result summary (`moves`, `winner`, timing statistics). -/
structure MatchResult where
  moves : Nat
  winner : Option Nat
  avg_move_time : ℚ
  max_move_time : ℚ
deriving DecidableEq, Repr

/-- Python `max(l)` on a non-empty list (the empty case is guarded). -/
def pyMax : List ℚ → ℚ
  | [] => 0
  | x :: xs => xs.foldl max x

/-- Result assembly: `moves` counts `moves_history` entries, statistics
come from `move_times` (zero when no move was ever accepted), the winner is
`get_winner` on the final state. -/
def MatchRunner.mk_result (G : GameI μ) (st : RunState μ) : MatchResult :=
  { moves := st.moves_history.length
    winner := G.get_winner st.state
    avg_move_time :=
      if st.move_times = [] then 0
      else st.move_times.sum / (st.move_times.length : ℚ)
    max_move_time := if st.move_times = [] then 0 else pyMax st.move_times }

/-- The runner's state at the top of `run_match`: reset state snapshotted,
empty histories, player 0 to move. -/
def MatchRunner.initial_state (G : GameI μ) (rng : RngState) : RunState μ :=
  { state := G.reset
    states_history := [G.reset]
    moves_history := []
    move_times := []
    current_player := 0
    move_count := 0
    rng := rng
    tick := 0
    feedback_log := [] }

/-- `run_match`: loop to terminal-or-cap, then assemble the result. -/
def MatchRunner.run_match (G : GameI μ) [DecidableEq μ]
    (agents : Nat → AgentI μ) (R : RandomModel) (times : Nat → ℚ)
    (max_moves fuel : Nat) (rng : RngState) :
    Option (Except PyErr (MatchResult × RunState μ)) :=
  match MatchRunner.run_loop G agents R times max_moves fuel
      (MatchRunner.initial_state G rng) with
  | none => none
  | some (Except.error e) => some (Except.error e)
  | some (Except.ok st) =>
    some (Except.ok (MatchRunner.mk_result G st, st))

/-! ## Claim C10: the rejected-move branch's frame effect -/

/-- **C10.** On the recovery path `run_match` routes both agent errors and
out-of-`legalMoves` proposals to the fallback branch, which applies the
random fallback move and appends the new snapshot to `states_history` but
appends nothing to `moves_history` and no sample to `move_times` (while
still consuming a turn); consequently the assembled result counts only
accepted moves in `moves` and computes `avg_move_time`/`max_move_time`
from the accepted moves' samples only. -/
theorem rejected_move_frame_effect :
    (∀ (μ : Type) [inst : DecidableEq μ] (G : GameI μ) (R : RandomModel)
      (times : Nat → ℚ) (st : RunState μ) (legal : List μ) (e : PyErr)
      (rng2 : RngState),
      MatchRunner.resolve G R times st legal (Except.error e, rng2) =
        MatchRunner.applyFallback G R st legal rng2) ∧
    (∀ (μ : Type) [inst : DecidableEq μ] (G : GameI μ) (R : RandomModel)
      (times : Nat → ℚ) (st : RunState μ) (legal : List μ) (m : μ)
      (rng2 : RngState), m ∉ legal →
      MatchRunner.resolve G R times st legal (Except.ok m, rng2) =
        MatchRunner.applyFallback G R st legal rng2) ∧
    (∀ (μ : Type) (G : GameI μ) (R : RandomModel) (st : RunState μ) (x : μ)
      (xs : List μ) (rng2 : RngState) (s2 : Board),
      G.make_move st.state ((choiceGet R rng2 (x :: xs) (by simp)).1)
          st.current_player = Except.ok s2 →
      ∃ st2, MatchRunner.applyFallback G R st (x :: xs) rng2 =
          Except.ok st2 ∧
        st2.states_history = st.states_history ++ [s2] ∧
        st2.moves_history = st.moves_history ∧
        st2.move_times = st.move_times ∧
        st2.move_count = st.move_count + 1) ∧
    (∀ (μ : Type) (G : GameI μ) (st : RunState μ),
      (MatchRunner.mk_result G st).moves = st.moves_history.length ∧
      (MatchRunner.mk_result G st).avg_move_time =
        (if st.move_times = [] then 0
          else st.move_times.sum / (st.move_times.length : ℚ)) ∧
      (MatchRunner.mk_result G st).max_move_time =
        (if st.move_times = [] then 0 else pyMax st.move_times)) := by
  refine ⟨?_, ?_, ?_, ?_⟩
  · intro μ inst G R times st legal e rng2
    rfl
  · intro μ inst G R times st legal m rng2 hm
    simp only [MatchRunner.resolve]
    rw [if_neg hm]
  · intro μ G R st x xs rng2 s2 happ
    simp only [MatchRunner.applyFallback]
    rw [happ]
    exact ⟨_, rfl, by simp, by simp, by simp, by simp⟩
  · intro μ G st
    exact ⟨rfl, rfl, rfl⟩

/-- Witness for `rejected_move_frame_effect`: on the 1×1 Gomoku game an
out-of-bounds agent proposal routes to the fallback, which applies the only
legal move with the frame effect above. -/
theorem rejected_move_frame_effect_witness :
    (MatchRunner.resolve (Gomoku.mk 1 1).toGameI R0 (fun _ => 1)
        (MatchRunner.initial_state (Gomoku.mk 1 1).toGameI ⟨0, 0⟩)
        [((0 : Int), (0 : Int))] (Except.ok ((9 : Int), (9 : Int)), ⟨0, 0⟩) =
      MatchRunner.applyFallback (Gomoku.mk 1 1).toGameI R0
        (MatchRunner.initial_state (Gomoku.mk 1 1).toGameI ⟨0, 0⟩)
        [((0 : Int), (0 : Int))] ⟨0, 0⟩) ∧
    (∃ st2, MatchRunner.applyFallback (Gomoku.mk 1 1).toGameI R0
        (MatchRunner.initial_state (Gomoku.mk 1 1).toGameI ⟨0, 0⟩)
        [((0 : Int), (0 : Int))] ⟨0, 0⟩ = Except.ok st2 ∧
      st2.states_history =
        (MatchRunner.initial_state (Gomoku.mk 1 1).toGameI
          ⟨0, 0⟩).states_history ++ [[[1]]] ∧
      st2.moves_history =
        (MatchRunner.initial_state (Gomoku.mk 1 1).toGameI
          ⟨0, 0⟩).moves_history ∧
      st2.move_times =
        (MatchRunner.initial_state (Gomoku.mk 1 1).toGameI
          ⟨0, 0⟩).move_times ∧
      st2.move_count =
        (MatchRunner.initial_state (Gomoku.mk 1 1).toGameI
          ⟨0, 0⟩).move_count + 1) :=
  ⟨rejected_move_frame_effect.2.1 (Int × Int) (Gomoku.mk 1 1).toGameI R0
      (fun _ => 1) (MatchRunner.initial_state (Gomoku.mk 1 1).toGameI ⟨0, 0⟩)
      [((0 : Int), (0 : Int))] ((9 : Int), (9 : Int)) ⟨0, 0⟩ (by decide),
    rejected_move_frame_effect.2.2.1 (Int × Int) (Gomoku.mk 1 1).toGameI R0
      (MatchRunner.initial_state (Gomoku.mk 1 1).toGameI ⟨0, 0⟩)
      ((0 : Int), (0 : Int)) [] ⟨0, 0⟩ [[1]] (by decide)⟩

/-! ## Claim C2: orchestrator recovery from an always-illegal agent -/

/-- The facts about a game the recovery analysis uses: legality closure,
player-independent legality, and non-terminal states having legal moves
(all hold for `Gomoku` and `Connect4`). -/
def GameOK (G : GameI μ) : Prop :=
  (∀ s p m, m ∈ G.get_legal_moves s p →
    ∃ b, G.make_move s m p = Except.ok b) ∧
  (∀ s p, G.get_legal_moves s p = G.get_legal_moves s 0) ∧
  (∀ s, G.is_terminal s = false → G.get_legal_moves s 0 ≠ [])

theorem gomoku_GameOK (g : Gomoku) : GameOK g.toGameI := by
  refine ⟨?_, fun s p => rfl, ?_⟩
  · intro s p m hm
    exact Gomoku.make_move_of_legal g s p p m hm
  · intro s hterm hnil
    have hnil2 : g.get_legal_moves s 0 = [] := hnil
    have ht2 : g.is_terminal s = false := hterm
    unfold Gomoku.is_terminal at ht2
    rw [hnil2] at ht2
    simp at ht2

theorem connect4_GameOK (g : Connect4) : GameOK g.toGameI := by
  refine ⟨?_, fun s p => rfl, ?_⟩
  · intro s p m hm
    exact Connect4.make_move_of_legal_col g s p p m hm
  · intro s hterm hnil
    have hnil2 : g.get_legal_moves s 0 = [] := hnil
    have ht2 : g.is_terminal s = false := hterm
    unfold Connect4.is_terminal at ht2
    rw [hnil2] at ht2
    simp at ht2

/-- Every decision the agent returns (when it returns at all) lies outside
the legal-move list the orchestrator passed it. -/
def AlwaysIllegal (G : GameI μ) (agents : Nat → AgentI μ) : Prop :=
  ∀ i s p rng m,
    ((agents i).make_move s (G.get_legal_moves s p) p rng).1 =
      Except.ok m → m ∉ G.get_legal_moves s p

theorem applyFallback_ok (G : GameI μ) (R : RandomModel) (st : RunState μ)
    (x : μ) (xs : List μ) (rng2 : RngState)
    (hclosure : ∀ m ∈ x :: xs,
      ∃ b, G.make_move st.state m st.current_player = Except.ok b) :
    ∃ s2, MatchRunner.applyFallback G R st (x :: xs) rng2 =
      Except.ok
        { st with
          state := s2
          states_history := st.states_history ++ [s2]
          current_player := (st.current_player + 1) % G.num_players
          move_count := st.move_count + 1
          rng := (choiceGet R rng2 (x :: xs) (by simp)).2
          tick := st.tick + 1
          feedback_log := st.feedback_log ++ [(st.current_player, false)] } := by
  obtain ⟨s2, hs2⟩ := hclosure ((choiceGet R rng2 (x :: xs) (by simp)).1)
    (List.get_mem _ _ _)
  refine ⟨s2, ?_⟩
  simp only [MatchRunner.applyFallback]
  rw [hs2]

theorem step_rejected (G : GameI μ) [DecidableEq μ]
    (agents : Nat → AgentI μ) (R : RandomModel) (times : Nat → ℚ)
    (st : RunState μ) (hGok : GameOK G)
    (hbad : AlwaysIllegal G agents)
    (hterm : G.is_terminal st.state = false) :
    ∃ st2 s2, MatchRunner.step G agents R times st = Except.ok st2 ∧
      st2.moves_history = st.moves_history ∧
      st2.move_times = st.move_times ∧
      st2.move_count = st.move_count + 1 ∧
      st2.states_history = st.states_history ++ [s2] ∧
      st2.feedback_log =
        st.feedback_log ++ [(st.current_player, false)] := by
  have hleg : G.get_legal_moves st.state st.current_player ≠ [] := by
    rw [hGok.2.1 st.state st.current_player]
    exact hGok.2.2 st.state hterm
  obtain ⟨x, xs, hxs⟩ := List.exists_cons_of_ne_nil hleg
  have hclosure : ∀ m ∈ x :: xs,
      ∃ b, G.make_move st.state m st.current_player = Except.ok b := by
    intro m hm
    exact hGok.1 st.state st.current_player m (by rw [hxs]; exact hm)
  unfold MatchRunner.step
  rw [if_neg hleg, hxs]
  cases hdec : (agents st.current_player).make_move st.state (x :: xs)
      st.current_player st.rng with
  | mk res rng2 =>
    cases res with
    | error e =>
      simp only [MatchRunner.resolve]
      obtain ⟨s2, hfb⟩ := applyFallback_ok G R st x xs rng2 hclosure
      rw [hfb]
      exact ⟨_, s2, rfl, by simp, by simp, by simp, by simp, by simp⟩
    | ok m =>
      have hm : m ∉ (x :: xs) := by
        have := hbad st.current_player st.state st.current_player st.rng m
        rw [hxs] at this
        exact this (by rw [hdec])
      simp only [MatchRunner.resolve]
      rw [if_neg hm]
      obtain ⟨s2, hfb⟩ := applyFallback_ok G R st x xs rng2 hclosure
      rw [hfb]
      exact ⟨_, s2, rfl, by simp, by simp, by simp, by simp, by simp⟩

theorem run_loop_all_rejected (G : GameI μ) [DecidableEq μ]
    (agents : Nat → AgentI μ) (R : RandomModel) (times : Nat → ℚ)
    (max_moves : Nat) (hGok : GameOK G) (hbad : AlwaysIllegal G agents) :
    ∀ (fuel : Nat) (st : RunState μ),
      max_moves + 1 ≤ st.move_count + fuel → st.move_count ≤ max_moves →
      ∃ stf, MatchRunner.run_loop G agents R times max_moves fuel st =
          some (Except.ok stf) ∧
        stf.moves_history = st.moves_history ∧
        stf.move_times = st.move_times ∧
        st.move_count ≤ stf.move_count ∧
        stf.move_count ≤ max_moves ∧
        (G.is_terminal stf.state = true ∨ stf.move_count = max_moves) ∧
        stf.states_history.length + st.move_count =
          st.states_history.length + stf.move_count ∧
        (∃ fb, stf.feedback_log = st.feedback_log ++ fb ∧
          fb.length + st.move_count = stf.move_count ∧
          ∀ x ∈ fb, x.2 = false) ∧
        (stf.move_count = st.move_count → stf = st) := by
  intro fuel
  induction fuel with
  | zero =>
    intro st hfuel hcnt
    omega
  | succ fuel ih =>
    intro st hfuel hcnt
    cases hterm : G.is_terminal st.state with
    | true =>
      refine ⟨st, ?_, rfl, rfl, le_refl _, hcnt, Or.inl hterm, by omega,
        ⟨[], by simp, by simp, by simp⟩, fun _ => rfl⟩
      unfold MatchRunner.run_loop
      rw [if_neg (by simp [hterm])]
    | false =>
      by_cases hlt : st.move_count < max_moves
      · obtain ⟨st2, s2, hstep, h1, h2, h3, h4, h5⟩ :=
          step_rejected G agents R times st hGok hbad hterm
        obtain ⟨stf, hloop, g1, g2, g3, g4, g5, g6, ⟨fb, gfb1, gfb2, gfb3⟩,
            g8⟩ := ih st2 (by omega) (by omega)
        refine ⟨stf, ?_, by rw [g1, h1], by rw [g2, h2], by omega, g4, g5,
          ?_, ?_, ?_⟩
        · unfold MatchRunner.run_loop
          rw [if_pos ⟨hterm, hlt⟩, hstep]
          exact hloop
        · rw [h4] at g6
          simp only [List.length_append, List.length_singleton] at g6
          omega
        · refine ⟨(st.current_player, false) :: fb, ?_, by simp; omega, ?_⟩
          · rw [gfb1, h5]
            simp
          · intro y hy
            rcases List.mem_cons.mp hy with hy | hy
            · rw [hy]
            · exact gfb3 y hy
        · intro heq
          omega
      · have heq : st.move_count = max_moves := by omega
        refine ⟨st, ?_, rfl, rfl, le_refl _, hcnt, Or.inr heq, by omega,
          ⟨[], by simp, by simp, by simp⟩, fun _ => rfl⟩
        unfold MatchRunner.run_loop
        rw [if_neg (by simp [hlt])]

/-- A test-double agent that always proposes the off-board Gomoku cell
`(9, 9)`. -/
def constIllegalAgent : AgentI (Int × Int) :=
  ⟨fun _ _ _ rng => (Except.ok (9, 9), rng)⟩

theorem constIllegalAgent_always_illegal :
    AlwaysIllegal (Gomoku.mk 1 1).toGameI fun _ => constIllegalAgent := by
  intro i s p rng m hm hmem
  have hm2 : m = ((9 : Int), (9 : Int)) := by
    have : Except.ok ((9 : Int), (9 : Int)) = Except.ok m := hm
    exact (Except.ok.inj this).symm
  subst hm2
  obtain ⟨r, c, hr, hc, hcell, heq⟩ :=
    (Gomoku.mem_get_legal_moves (Gomoku.mk 1 1) s p _).mp hmem
  have h9 : (9 : Int) = (r : Int) := congrArg Prod.fst heq
  have : r < 1 := hr
  omega

/-- **C2 counterexample.** On the 1×1 Gomoku game with cap 3 and an agent
that always proposes the illegal `(9, 9)`, the match completes: the single
fallback move reaches a terminal state, so `min(cap, movesUntilTerminal)`
is 1 — but the finished match contains 0 accepted moves (`result.moves`),
because fallback moves are never recorded in `moves_history`. -/
theorem orchestrator_recovery_counterexample :
    MatchRunner.run_match (Gomoku.mk 1 1).toGameI
        (fun _ => constIllegalAgent) R0 (fun _ => 1) 3 4 ⟨0, 0⟩ =
      some (Except.ok
        ({ moves := 0, winner := some 0, avg_move_time := 0,
            max_move_time := 0 },
          { state := [[1]], states_history := [[[0]], [[1]]],
            moves_history := [], move_times := [], current_player := 1,
            move_count := 1, rng := ⟨0, 1⟩, tick := 1,
            feedback_log := [(0, false)] })) ∧
      (Gomoku.mk 1 1).toGameI.is_terminal [[1]] = true := by
  refine ⟨by decide, by decide⟩

/-- **C2 (amended).** Against agents whose every returned decision lies
outside the passed legal-move list, a match over a game with legality
closure, player-independent legality, and moves-at-non-terminal (both
repository games qualify) still runs to completion with fuel `cap + 1`:
every consumed turn takes the rejected path — `move_feedback` is invoked
with `accepted = false` each turn (so at least once whenever the initial
state is non-terminal and the cap is positive), and a uniformly random
legal move is applied on the agent's behalf, appending one state snapshot
per turn until the state is terminal or the cap is reached.  The finished
match, however, records those fallback moves nowhere: the result's
accepted-move count is 0 and its timing statistics are zero. -/
theorem orchestrator_recovery_all_illegal :
    ∀ (μ : Type) [_inst : DecidableEq μ] (G : GameI μ)
      (agents : Nat → AgentI μ) (R : RandomModel) (times : Nat → ℚ)
      (max_moves : Nat) (rng : RngState),
      GameOK G → AlwaysIllegal G agents →
      ∃ result stf,
        MatchRunner.run_match G agents R times max_moves (max_moves + 1)
            rng = some (Except.ok (result, stf)) ∧
        result.moves = 0 ∧
        stf.moves_history = [] ∧
        stf.move_times = [] ∧
        result.avg_move_time = 0 ∧
        result.max_move_time = 0 ∧
        stf.move_count ≤ max_moves ∧
        (G.is_terminal stf.state = true ∨ stf.move_count = max_moves) ∧
        stf.states_history.length = 1 + stf.move_count ∧
        stf.feedback_log.length = stf.move_count ∧
        (∀ x ∈ stf.feedback_log, x.2 = false) ∧
        (G.is_terminal G.reset = false → 1 ≤ max_moves →
          stf.feedback_log ≠ []) := by
  intro μ _inst G agents R times max_moves rng hGok hbad
  obtain ⟨stf, hloop, h1, h2, h3, h4, h5, h6, ⟨fb, hfb1, hfb2, hfb3⟩, h8⟩ :=
    run_loop_all_rejected G agents R times max_moves hGok hbad
      (max_moves + 1) (MatchRunner.initial_state G rng)
      (by simp [MatchRunner.initial_state]) (by simp [MatchRunner.initial_state])
  have hmh : stf.moves_history = [] := h1
  have hmt : stf.move_times = [] := h2
  refine ⟨MatchRunner.mk_result G stf, stf, ?_, ?_, hmh, hmt, ?_, ?_, h4,
    h5, ?_, ?_, ?_, ?_⟩
  · unfold MatchRunner.run_match
    rw [hloop]
  · simp [MatchRunner.mk_result, hmh]
  · simp [MatchRunner.mk_result, hmt]
  · simp [MatchRunner.mk_result, hmt]
  · have : stf.states_history.length + 0 = 1 + stf.move_count := by
      simpa [MatchRunner.initial_state] using h6
    omega
  · have : stf.feedback_log = fb := by
      simpa [MatchRunner.initial_state] using hfb1
    rw [this]
    have : fb.length + 0 = stf.move_count := by
      simpa [MatchRunner.initial_state] using hfb2
    omega
  · intro x hx
    have hfb : stf.feedback_log = fb := by
      simpa [MatchRunner.initial_state] using hfb1
    exact hfb3 x (by rw [← hfb]; exact hx)
  · intro hres hcap hnil
    have hfb : stf.feedback_log = fb := by
      simpa [MatchRunner.initial_state] using hfb1
    have hlen : fb.length + 0 = stf.move_count := by
      simpa [MatchRunner.initial_state] using hfb2
    have hmc0 : stf.move_count = 0 := by
      rw [hfb] at hnil
      subst hnil
      simpa using hlen.symm
    have hstf : stf = MatchRunner.initial_state G rng := by
      apply h8
      simp [MatchRunner.initial_state]
      omega
    rcases h5 with h5 | h5
    · rw [hstf] at h5
      have : G.is_terminal G.reset = true := h5
      rw [hres] at this
      exact absurd this (by simp)
    · omega

/-- Witness for `orchestrator_recovery_all_illegal`: the concrete 1×1
Gomoku match against the always-illegal agent. -/
theorem orchestrator_recovery_all_illegal_witness :
    ∃ result stf,
      MatchRunner.run_match (Gomoku.mk 1 1).toGameI
          (fun _ => constIllegalAgent) R0 (fun _ => 1) 3 4 ⟨0, 0⟩ =
        some (Except.ok (result, stf)) ∧
      result.moves = 0 ∧
      stf.moves_history = [] ∧
      stf.move_times = [] ∧
      result.avg_move_time = 0 ∧
      result.max_move_time = 0 ∧
      stf.move_count ≤ 3 ∧
      ((Gomoku.mk 1 1).toGameI.is_terminal stf.state = true ∨
        stf.move_count = 3) ∧
      stf.states_history.length = 1 + stf.move_count ∧
      stf.feedback_log.length = stf.move_count ∧
      (∀ x ∈ stf.feedback_log, x.2 = false) ∧
      ((Gomoku.mk 1 1).toGameI.is_terminal
          (Gomoku.mk 1 1).toGameI.reset = false → 1 ≤ 3 →
        stf.feedback_log ≠ []) :=
  orchestrator_recovery_all_illegal (Int × Int) (Gomoku.mk 1 1).toGameI
    (fun _ => constIllegalAgent) R0 (fun _ => 1) 3 ⟨0, 0⟩
    (gomoku_GameOK (Gomoku.mk 1 1)) constIllegalAgent_always_illegal

/-! ## Claim C7: determinism of seeded Random agents -/

/-- The CLI pipeline of one match with two seeded Random agents: construct
agent 1 (seeding the global RNG with `s1`), construct agent 2 (re-seeding
with `s2` — seeding is global), then run the match. -/
def seeded_random_match (G : GameI μ) [DecidableEq μ] (R : RandomModel)
    (times : Nat → ℚ) (s1 s2 max_moves fuel : Nat) (rng0 : RngState) :
    Option (Except PyErr (MatchResult × RunState μ)) :=
  MatchRunner.run_match G (fun _ => randomAgentI R) R times max_moves fuel
    (RandomAgent.init (some s2) (RandomAgent.init (some s1) rng0))

/-- **C7.** Determinism of seeded Random agents: a Random agent
constructed with a seed and presented a sequence of legal-move lists
produces a decision sequence that depends only on the seed and the lists
(two identical seeds and list sequences give identical decisions, whatever
the prior global RNG state); likewise two identically configured
seeded-random matches produce identical outcomes regardless of the prior
global RNG state.  Moreover `decide` fails with the no-legal-moves
`ValueError` exactly when the legal list is empty, and otherwise returns
the element of the list selected by `random.choice`. -/
theorem random_agent_determinism :
    (∀ (α : Type) (R : RandomModel) (s1 s2 : Nat) (L1 L2 : List (List α))
      (rng1 rng2 : RngState), s1 = s2 → L1 = L2 →
      RandomAgent.run_session R (some s1) L1 rng1 =
        RandomAgent.run_session R (some s2) L2 rng2) ∧
    (∀ (μ : Type) [_inst : DecidableEq μ] (G : GameI μ) (R : RandomModel)
      (times : Nat → ℚ) (s1 s2 max_moves fuel : Nat)
      (rng0 rng0' : RngState),
      seeded_random_match G R times s1 s2 max_moves fuel rng0 =
        seeded_random_match G R times s1 s2 max_moves fuel rng0') ∧
    (∀ (α : Type) (R : RandomModel) (legal : List α) (rng : RngState),
      (∃ e, (RandomAgent.make_move R legal rng).1 = Except.error e) ↔
        legal = []) ∧
    (∀ (α : Type) (R : RandomModel) (legal : List α) (rng : RngState)
      (m : α),
      (RandomAgent.make_move R legal rng).1 = Except.ok m → m ∈ legal) := by
  refine ⟨?_, ?_, ?_, ?_⟩
  · intro α R s1 s2 L1 L2 rng1 rng2 hs hL
    subst hs
    subst hL
    rfl
  · intro μ _inst G R times s1 s2 max_moves fuel rng0 rng0'
    rfl
  · intro α R legal rng
    cases legal with
    | nil => exact ⟨fun _ => rfl, fun _ => ⟨_, rfl⟩⟩
    | cons x xs =>
      constructor
      · rintro ⟨e, he⟩
        exact absurd he (by simp [RandomAgent.make_move])
      · intro h
        exact absurd h (by simp)
  · intro α R legal rng m hm
    cases legal with
    | nil => exact absurd hm (by simp [RandomAgent.make_move])
    | cons x xs =>
      have : Except.ok (choiceGet R rng (x :: xs) (by simp)).1 =
          Except.ok m := hm
      rw [← Except.ok.inj this]
      exact List.get_mem _ _ _

/-- Witness for `random_agent_determinism`: two sessions with seed 42 and
the same lists agree from different prior RNG states, and a concrete
decision is a member of its legal list. -/
theorem random_agent_determinism_witness :
    RandomAgent.run_session R0 (some 42) [[1, 2], [3]] ⟨7, 9⟩ =
      RandomAgent.run_session R0 (some 42) [[1, 2], [3]] ⟨0, 0⟩ ∧
    (1 : Nat) ∈ [1, 2] :=
  ⟨random_agent_determinism.1 Nat R0 42 42 [[1, 2], [3]] [[1, 2], [3]]
      ⟨7, 9⟩ ⟨0, 0⟩ rfl rfl,
    random_agent_determinism.2.2.2 Nat R0 [1, 2] ⟨0, 0⟩ 1 (by decide)⟩

end BoardBench
